import Mathlib

/-!
Shallow embedding of the ACE playbook delta engine
(`src/app/domain/ace/delta.py`, `src/app/domain/ace/services.py`,
`src/app/domain/ace/playbook.py`).

Conventions of the embedding:
* Python `dict[str, Any]` metadata maps become insertion-ordered association
  lists `List (String × String)`; `dict.update` becomes `dictUpdate`.
* Database rows become structures; primary keys are `Nat` drawn from a
  monotone `nextId` counter in the `Store`; `created_at` timestamps are `Nat`
  drawn from a monotone `nextCreatedAt` counter.
* The SQLAlchemy session and its transaction are modelled by explicit state
  passing: mutating helpers return a new `Store`.  The `async with
  transaction` scope of `apply_deltas` is modelled by running the body on a
  working store and discarding the working store on error (rollback).
* Persistence failures that the database can raise mid-batch (the spec's
  `StoreError`) are modelled by a fault oracle `faults : Nat → Bool`
  consulted once per dispatched operation and once for the revision write;
  `noFaults` is the fault-free run.  The unique-constraint violation on
  bullet creation is modelled directly in `createBullet`.
* Truthiness of Python strings (`if delta.content:` etc.) is `present`.
-/

deriving instance DecidableEq for Except

/-- Metadata maps: insertion-ordered association lists standing in for
Python string-keyed dictionaries. -/
abbrev Meta := List (String × String)

/-- First value bound to `k`, mirroring Python `d.get(k)`. -/
def dictLookup (k : String) (d : Meta) : Option String :=
  (d.find? (fun kv => kv.1 == k)).map Prod.snd

/-- Python `merged = dict(old); merged.update(new)`: keys of `old` keep their
position (values overwritten by `new` on conflict), keys only in `new` are
appended in their order. -/
def dictUpdate (old new : Meta) : Meta :=
  old.map (fun kv =>
    match dictLookup kv.1 new with
    | some v => (kv.1, v)
    | none => kv) ++
  new.filter (fun kv => (dictLookup kv.1 old).isNone)

/-- Python `str.title()`: first letter of every alphabetic run uppercased,
the rest lowercased. -/
def titleChars : Bool → List Char → List Char
  | _, [] => []
  | prevAlpha, c :: cs =>
    if c.isAlpha then
      (if prevAlpha then c.toLower else c.toUpper) :: titleChars true cs
    else
      c :: titleChars false cs

/-- String form of `titleChars`, modelling `name.title()`. -/
def pyTitle (s : String) : String := ⟨titleChars false s.data⟩

/-- Truthiness of an optional string: `None` and `""` are falsy. -/
def present : Option String → Bool
  | none => false
  | some s => !s.isEmpty

/-- `DeltaAction`: supported delta operation types (delta.py). -/
inductive DeltaAction
  | ADD
  | UPDATE
  | TAG
  | REMOVE
deriving DecidableEq

/-- `DeltaOperation`: normalized mutation request for a single playbook
bullet (delta.py). -/
structure DeltaOperation where
  action : DeltaAction
  bullet_id : String
  section_name : Option String := none
  section_display_name : Option String := none
  content : Option String := none
  metadata : Option Meta := none
  helpful_delta : Int := 0
  harmful_delta : Int := 0
deriving DecidableEq

/-- `DeltaOperation.dedupe_key`: stable key for deduplicating batch
operations. -/
def DeltaOperation.dedupe_key (op : DeltaOperation) : DeltaAction × String :=
  (op.action, op.bullet_id)

/-- Validation failures raised while constructing a `DeltaOperation`
(pydantic `ValidationError` causes in delta.py). -/
inductive ValidationErr
  | bulletIdLength
  | addRequiresSectionName
  | addRequiresContent
  | updateRequiresFields
  | tagRequiresDelta
deriving DecidableEq

/-- `DeltaOperation._validate_action`: ensure that each action receives the
required payload. -/
def DeltaOperation.validate (op : DeltaOperation) : Except ValidationErr DeltaOperation :=
  if op.action == DeltaAction.ADD && !(present op.section_name) then
    .error .addRequiresSectionName
  else if op.action == DeltaAction.ADD && !(present op.content) then
    .error .addRequiresContent
  else if op.action == DeltaAction.UPDATE &&
      !(present op.section_name || present op.section_display_name ||
        present op.content || op.metadata.isSome) then
    .error .updateRequiresFields
  else if op.action == DeltaAction.TAG &&
      op.helpful_delta == 0 && op.harmful_delta == 0 then
    .error .tagRequiresDelta
  else
    .ok op

/-- Construct-and-validate for `DeltaOperation`: pydantic field constraints
(`bullet_id` length 1..128) followed by `_validate_action`. -/
def mkDeltaOperation (action : DeltaAction) (bullet_id : String)
    (section_name section_display_name content : Option String)
    (metadata : Option Meta) (helpful_delta harmful_delta : Int) :
    Except ValidationErr DeltaOperation :=
  if bullet_id.length < 1 then .error .bulletIdLength
  else if 128 < bullet_id.length then .error .bulletIdLength
  else DeltaOperation.validate
    { action := action, bullet_id := bullet_id, section_name := section_name,
      section_display_name := section_display_name, content := content,
      metadata := metadata, helpful_delta := helpful_delta,
      harmful_delta := harmful_delta }

/-- Well-formedness of an operation, stated the way the spec describes the
validation rules; compared against `mkDeltaOperation` in the theorems. -/
def DeltaOperation.wf (op : DeltaOperation) : Bool :=
  (1 ≤ op.bullet_id.length && op.bullet_id.length ≤ 128) &&
  match op.action with
  | .ADD => present op.section_name && present op.content
  | .UPDATE =>
      present op.section_name || present op.section_display_name ||
      present op.content || op.metadata.isSome
  | .TAG => !(op.helpful_delta == 0 && op.harmful_delta == 0)
  | .REMOVE => true

/-- Row of the `AcePlaybookSection` table. -/
structure SectionRow where
  id : Nat
  name : String
  display_name : String
  description : Option String
  ordering : Int
  metadata_ : Meta
deriving DecidableEq

/-- Row of the `AcePlaybookBullet` table. -/
structure BulletRow where
  id : Nat
  bullet_id : String
  content : String
  section_id : Nat
  metadata_ : Meta
  helpful_count : Int
  harmful_count : Int
  created_at : Nat
deriving DecidableEq

/-- Row of the `AcePlaybookRevision` table. -/
structure RevisionRow where
  id : Nat
  operations : List DeltaOperation
  description : Option String
  applied_by : Option String
  metadata_ : Meta
deriving DecidableEq

/-- The persistent store backing the playbook services: sections, bullets and
revisions, plus the monotone id / timestamp counters. -/
structure Store where
  sections : List SectionRow
  bullets : List BulletRow
  revisions : List RevisionRow
  nextId : Nat
  nextCreatedAt : Nat
deriving DecidableEq

/-- Store-level errors surfacing out of persistence operations. -/
inductive StoreErr
  | duplicateKey
  | injected
deriving DecidableEq

/-- Partial update payload for a section row (the `updates` dict in
`AcePlaybookSectionService.get_or_create`). -/
structure SectionUpdate where
  display_name : Option String := none
  description : Option String := none
  metadata_ : Option Meta := none
deriving DecidableEq

/-- True when the `updates` dict is empty. -/
def SectionUpdate.isEmpty (u : SectionUpdate) : Bool :=
  u.display_name.isNone && u.description.isNone && u.metadata_.isNone

/-- Apply a partial section update to a row. -/
def applySectionUpdate (sec : SectionRow) (u : SectionUpdate) : SectionRow :=
  { sec with
    display_name := u.display_name.getD sec.display_name,
    description := match u.description with
      | some d => some d
      | none => sec.description,
    metadata_ := u.metadata_.getD sec.metadata_ }

/-- SQL `max(ordering)` over all sections (`None` on an empty table). -/
def maxOrdering (s : Store) : Option Int :=
  s.sections.foldl (fun acc sec =>
    match acc with
    | none => some sec.ordering
    | some v => some (max v sec.ordering)) none

/-- Python `value or default` on an optional integer (`None` and `0` are
falsy). -/
def pyOrInt (v : Option Int) (dflt : Int) : Int :=
  match v with
  | none => dflt
  | some x => if x = 0 then dflt else x

/-- `AcePlaybookSectionService._next_ordering`. -/
def _next_ordering (s : Store) : Int :=
  pyOrInt (maxOrdering s) 0 + 1

/-- `AcePlaybookSectionService.get_or_create`: fetch an existing section
(merging any provided updates) or create a new ordered entry. -/
def get_or_create (s : Store) (name : String)
    (display_name description : Option String) (metadata : Option Meta) :
    SectionRow × Store :=
  match s.sections.find? (fun sec => sec.name == name) with
  | some sec =>
    let u0 : SectionUpdate := {}
    let u1 := match display_name with
      | some dn => if !dn.isEmpty && sec.display_name != dn then
          { u0 with display_name := some dn } else u0
      | none => u0
    let u2 := match description with
      | some d => if !d.isEmpty && sec.description != some d then
          { u1 with description := some d } else u1
      | none => u1
    let u3 := match metadata with
      | some md =>
        let merged := dictUpdate sec.metadata_ md
        if merged != sec.metadata_ then { u2 with metadata_ := some merged } else u2
      | none => u2
    if u3.isEmpty then (sec, s)
    else
      let sec2 := applySectionUpdate sec u3
      (sec2, { s with sections :=
        s.sections.map (fun t => if t.id == sec.id then sec2 else t) })
  | none =>
    let ordering := _next_ordering s
    let newSec : SectionRow :=
      { id := s.nextId,
        name := name,
        display_name := match display_name with
          | some dn => if dn.isEmpty then pyTitle name else dn
          | none => pyTitle name,
        description := description,
        ordering := ordering,
        metadata_ := metadata.getD [] }
    (newSec, { s with sections := s.sections ++ [newSec], nextId := s.nextId + 1 })

/-- Partial update payload for a bullet row (the `data` dicts passed to
`self.update` / `self.create` in playbook.py). -/
structure BulletUpdate where
  bullet_id : Option String := none
  content : Option String := none
  section_id : Option Nat := none
  metadata_ : Option Meta := none
  helpful_count : Option Int := none
  harmful_count : Option Int := none
deriving DecidableEq

/-- True when the `updates` dict is empty. -/
def BulletUpdate.isEmpty (u : BulletUpdate) : Bool :=
  u.bullet_id.isNone && u.content.isNone && u.section_id.isNone &&
  u.metadata_.isNone && u.helpful_count.isNone && u.harmful_count.isNone

/-- Apply a partial bullet update to a row. -/
def applyBulletUpdate (b : BulletRow) (u : BulletUpdate) : BulletRow :=
  { b with
    bullet_id := u.bullet_id.getD b.bullet_id,
    content := u.content.getD b.content,
    section_id := u.section_id.getD b.section_id,
    metadata_ := u.metadata_.getD b.metadata_,
    helpful_count := u.helpful_count.getD b.helpful_count,
    harmful_count := u.harmful_count.getD b.harmful_count }

/-- `self.get_one_or_none(AcePlaybookBullet.bullet_id == ...)`. -/
def findBullet (s : Store) (bullet_id : String) : Option BulletRow :=
  s.bullets.find? (fun b => b.bullet_id == bullet_id)

/-- `self.update(data=..., item_id=...)` on the bullet table. -/
def updateBullet (s : Store) (data : BulletUpdate) (item_id : Nat) : Store :=
  { s with bullets :=
    s.bullets.map (fun b => if b.id == item_id then applyBulletUpdate b data else b) }

/-- `self.create(data)` on the bullet table; the database unique constraint
on `bullet_id` raises a duplicate-key error. -/
def createBullet (s : Store) (data : BulletUpdate) :
    Except StoreErr (BulletRow × Store) :=
  if s.bullets.any (fun b => b.bullet_id == data.bullet_id.getD "") then
    .error .duplicateKey
  else
    let row : BulletRow :=
      { id := s.nextId,
        bullet_id := data.bullet_id.getD "",
        content := data.content.getD "",
        section_id := data.section_id.getD 0,
        metadata_ := data.metadata_.getD [],
        helpful_count := data.helpful_count.getD 0,
        harmful_count := data.harmful_count.getD 0,
        created_at := s.nextCreatedAt }
    .ok (row, { s with
                bullets := s.bullets ++ [row], nextId := s.nextId + 1,
                nextCreatedAt := s.nextCreatedAt + 1 })

/-- `self.delete(item_id)` on the bullet table. -/
def deleteBullet (s : Store) (item_id : Nat) : Store :=
  { s with bullets := s.bullets.filter (fun b => b.id != item_id) }

/-- `AcePlaybookService._apply_add`. -/
def _apply_add (s : Store) (delta : DeltaOperation) :
    Except StoreErr (BulletRow × Store) :=
  let gc := get_or_create s (delta.section_name.getD "")
    delta.section_display_name none none
  let sec := gc.1
  let s1 := gc.2
  let data : BulletUpdate :=
    { bullet_id := some delta.bullet_id,
      content := delta.content,
      section_id := some sec.id,
      metadata_ := some (delta.metadata.getD []),
      helpful_count := some (max delta.helpful_delta 0),
      harmful_count := some (max delta.harmful_delta 0) }
  match findBullet s1 delta.bullet_id with
  | some existing => .ok (applyBulletUpdate existing data, updateBullet s1 data existing.id)
  | none => createBullet s1 data

/-- `AcePlaybookService._apply_update`. -/
def _apply_update (s : Store) (delta : DeltaOperation) :
    Option BulletRow × Store :=
  match findBullet s delta.bullet_id with
  | none => (none, s)
  | some bullet =>
    let u0 : BulletUpdate := {}
    let u1 := if present delta.content then { u0 with content := delta.content } else u0
    let u2 := if delta.metadata.isSome then
        { u1 with metadata_ := some (delta.metadata.getD []) } else u1
    let step3 :=
      if present delta.section_name then
        let gc := get_or_create s (delta.section_name.getD "")
          delta.section_display_name none none
        ({ u2 with section_id := some gc.1.id }, gc.2)
      else (u2, s)
    let u3 := step3.1
    let s1 := step3.2
    if u3.isEmpty then (some bullet, s1)
    else (some (applyBulletUpdate bullet u3), updateBullet s1 u3 bullet.id)

/-- `AcePlaybookService._apply_tag`. -/
def _apply_tag (s : Store) (delta : DeltaOperation) :
    Option BulletRow × Store :=
  match findBullet s delta.bullet_id with
  | none => (none, s)
  | some bullet =>
    let new_helpful := max 0 (bullet.helpful_count + delta.helpful_delta)
    let new_harmful := max 0 (bullet.harmful_count + delta.harmful_delta)
    let data : BulletUpdate :=
      { helpful_count := some new_helpful, harmful_count := some new_harmful }
    (some (applyBulletUpdate bullet data), updateBullet s data bullet.id)

/-- `AcePlaybookService._apply_remove`. -/
def _apply_remove (s : Store) (delta : DeltaOperation) : Bool × Store :=
  match findBullet s delta.bullet_id with
  | none => (false, s)
  | some bullet => (true, deleteBullet s bullet.id)

/-- `PlaybookDeltaResult`: summary of mutations applied to the playbook.
`revision_id` carries the created revision's primary key. -/
structure PlaybookDeltaResult where
  added : List String := []
  updated : List String := []
  tagged : List String := []
  removed : List String := []
  skipped : List String := []
  revision_id : Option Nat := none
deriving DecidableEq

/-- `PlaybookDeltaResult.has_changes`. -/
def PlaybookDeltaResult.has_changes (r : PlaybookDeltaResult) : Bool :=
  !r.added.isEmpty || !r.updated.isEmpty || !r.tagged.isEmpty || !r.removed.isEmpty

/-- One step of `AcePlaybookService._deduplicate_ops`: fold a single incoming
operation into the keyed accumulator (Python dict insertion semantics: an
existing key keeps its position). -/
def dedupeStep (acc : List DeltaOperation) (op : DeltaOperation) :
    List DeltaOperation :=
  if op.action == DeltaAction.TAG &&
      acc.any (fun o => o.dedupe_key == op.dedupe_key) then
    acc.map (fun o => if o.dedupe_key == op.dedupe_key then
      { o with helpful_delta := o.helpful_delta + op.helpful_delta,
               harmful_delta := o.harmful_delta + op.harmful_delta }
      else o)
  else if acc.any (fun o => o.dedupe_key == op.dedupe_key) then
    acc.map (fun o => if o.dedupe_key == op.dedupe_key then op else o)
  else acc ++ [op]

/-- `AcePlaybookService._deduplicate_ops`. -/
def _deduplicate_ops (operations : List DeltaOperation) : List DeltaOperation :=
  operations.foldl dedupeStep []

/-- Body of the `for delta in deduped` dispatch loop in
`AcePlaybookService.apply_deltas`, for one operation. -/
def applyStep (s : Store) (r : PlaybookDeltaResult) (delta : DeltaOperation) :
    Except StoreErr (Store × PlaybookDeltaResult) :=
  match delta.action with
  | .ADD =>
    match _apply_add s delta with
    | .error e => .error e
    | .ok (bullet, s1) => .ok (s1, { r with added := r.added ++ [bullet.bullet_id] })
  | .UPDATE =>
    match _apply_update s delta with
    | (some bullet, s1) => .ok (s1, { r with updated := r.updated ++ [bullet.bullet_id] })
    | (none, s1) => .ok (s1, { r with skipped := r.skipped ++ [delta.bullet_id] })
  | .TAG =>
    match _apply_tag s delta with
    | (some bullet, s1) => .ok (s1, { r with tagged := r.tagged ++ [bullet.bullet_id] })
    | (none, s1) => .ok (s1, { r with skipped := r.skipped ++ [delta.bullet_id] })
  | .REMOVE =>
    match _apply_remove s delta with
    | (true, s1) => .ok (s1, { r with removed := r.removed ++ [delta.bullet_id] })
    | (false, s1) => .ok (s1, { r with skipped := r.skipped ++ [delta.bullet_id] })

/-- The dispatch loop over the deduplicated batch; `faults i` injects a
persistence failure at the i-th operation. -/
def runOps (faults : Nat → Bool) (i : Nat) (s : Store)
    (r : PlaybookDeltaResult) :
    List DeltaOperation → Except StoreErr (Store × PlaybookDeltaResult)
  | [] => .ok (s, r)
  | delta :: rest =>
    if faults i then .error .injected
    else match applyStep s r delta with
      | .error e => .error e
      | .ok (s1, r1) => runOps faults (i + 1) s1 r1 rest

/-- `revision_service.create(...)`: append one immutable revision row. -/
def createRevision (s : Store) (ops : List DeltaOperation)
    (description applied_by : Option String) (metadata : Meta) :
    RevisionRow × Store :=
  let row : RevisionRow :=
    { id := s.nextId, operations := ops, description := description,
      applied_by := applied_by, metadata_ := metadata }
  (row, { s with revisions := s.revisions ++ [row], nextId := s.nextId + 1 })

/-- The fault-free oracle. -/
def noFaults : Nat → Bool := fun _ => false

/-- `AcePlaybookService.apply_deltas`: deduplicate, run the batch inside one
atomic scope, write a revision when something changed; on any error the
scope rolls back and the visible store is the input store. -/
def apply_deltas (faults : Nat → Bool) (s : Store)
    (operations : List DeltaOperation)
    (applied_by description : Option String) (metadata : Option Meta) :
    Store × Except StoreErr PlaybookDeltaResult :=
  let deduped := _deduplicate_ops operations
  if deduped.isEmpty then (s, .ok {})
  else
    let body : Except StoreErr (Store × PlaybookDeltaResult) :=
      match runOps faults 0 s {} deduped with
      | .error e => .error e
      | .ok (s1, r) =>
        if r.has_changes then
          if faults deduped.length then .error .injected
          else
            let cr := createRevision s1 deduped description applied_by (metadata.getD [])
            .ok (cr.2, { r with revision_id := some cr.1.id })
        else .ok (s1, r)
    match body with
    | .error e => (s, .error e)
    | .ok (s1, r) => (s1, .ok r)

/-- `PlaybookBullet`: serializable snapshot for a playbook bullet. -/
structure PlaybookBullet where
  bullet_id : String
  section_name : String
  section_display_name : String
  content : String
  helpful_count : Int
  harmful_count : Int
  metadata : Meta
  created_at : Nat
deriving DecidableEq

/-- `PlaybookSection`: serializable snapshot for a playbook section. -/
structure PlaybookSection where
  name : String
  display_name : String
  description : Option String
  ordering : Int
  metadata : Meta
  bullet_ids : List String := []
deriving DecidableEq

/-- `PlaybookSnapshot`: ordered representation of sections and bullet
lookups (both Python dicts become insertion-ordered association lists). -/
structure PlaybookSnapshot where
  sections : List (String × PlaybookSection) := []
  bullets : List (String × PlaybookBullet) := []
deriving DecidableEq

/-- Dict read `snapshot.sections.get(name)`. -/
def snapGet (secs : List (String × PlaybookSection)) (name : String) :
    Option PlaybookSection :=
  (secs.find? (fun p => p.1 == name)).map Prod.snd

/-- Dict write `snapshot.sections[name] = v` (overwrite in place, else
append). -/
def snapSet (secs : List (String × PlaybookSection)) (name : String)
    (v : PlaybookSection) : List (String × PlaybookSection) :=
  if secs.any (fun p => p.1 == name) then
    secs.map (fun p => if p.1 == name then (name, v) else p)
  else secs ++ [(name, v)]

/-- Dict write `snapshot.bullets[bullet_id] = v`. -/
def snapSetBullet (buls : List (String × PlaybookBullet)) (bullet_id : String)
    (v : PlaybookBullet) : List (String × PlaybookBullet) :=
  if buls.any (fun p => p.1 == bullet_id) then
    buls.map (fun p => if p.1 == bullet_id then (bullet_id, v) else p)
  else buls ++ [(bullet_id, v)]

/-- Primary-key lookup backing the `bullet.section` relationship. -/
def findSectionById (s : Store) (id : Nat) : Option SectionRow :=
  s.sections.find? (fun sec => sec.id == id)

/-- Fallback row for a dangling `section_id`; unreachable for stores
satisfying foreign-key integrity. -/
def defaultSectionRow : SectionRow :=
  { id := 0, name := "", display_name := "", description := none,
    ordering := 0, metadata_ := [] }

/-- The `bullet.section` relationship. -/
def bulletSection (s : Store) (b : BulletRow) : SectionRow :=
  (findSectionById s b.section_id).getD defaultSectionRow

/-- SQL `ORDER BY ordering ASC, name ASC` on sections. -/
def sectionLE (a b : SectionRow) : Prop :=
  a.ordering < b.ordering ∨ (a.ordering = b.ordering ∧ a.name.data ≤ b.name.data)

instance : DecidableRel sectionLE := fun a b => by
  unfold sectionLE; infer_instance

instance : IsTotal SectionRow sectionLE where
  total a b := by
    unfold sectionLE
    rcases lt_trichotomy a.ordering b.ordering with h | h | h
    · exact Or.inl (Or.inl h)
    · rcases le_total a.name.data b.name.data with h2 | h2
      · exact Or.inl (Or.inr ⟨h, h2⟩)
      · exact Or.inr (Or.inr ⟨h.symm, h2⟩)
    · exact Or.inr (Or.inl h)

instance : IsTrans SectionRow sectionLE where
  trans a b c hab hbc := by
    unfold sectionLE at *
    rcases hab with h1 | ⟨h1, h1n⟩
    · rcases hbc with h2 | ⟨h2, _⟩
      · exact Or.inl (h1.trans h2)
      · exact Or.inl (h2 ▸ h1)
    · rcases hbc with h2 | ⟨h2, h2n⟩
      · exact Or.inl (h1 ▸ h2)
      · exact Or.inr ⟨h1.trans h2, h1n.trans h2n⟩

/-- SQL `ORDER BY created_at ASC` on bullets. -/
def bulletLE (a b : BulletRow) : Prop :=
  a.created_at ≤ b.created_at

instance : DecidableRel bulletLE := fun a b => by
  unfold bulletLE; infer_instance

instance : IsTotal BulletRow bulletLE :=
  ⟨fun a b => Nat.le_total a.created_at b.created_at⟩

instance : IsTrans BulletRow bulletLE :=
  ⟨fun _ _ _ h1 h2 => Nat.le_trans h1 h2⟩

/-- The section rows selected by `get_snapshot` before ordering. -/
def selectedSections (s : Store) (section_names : Option (List String)) :
    List SectionRow :=
  match section_names with
  | some names =>
    if names.isEmpty then s.sections
    else s.sections.filter (fun sec => names.contains sec.name)
  | none => s.sections

/-- The bullet rows selected by `get_snapshot` before ordering (the join on
the section table when a name filter is given). -/
def selectedBullets (s : Store) (section_names : Option (List String)) :
    List BulletRow :=
  match section_names with
  | some names =>
    if names.isEmpty then s.bullets
    else s.bullets.filter (fun b =>
      (findSectionById s b.section_id).any (fun sec => names.contains sec.name))
  | none => s.bullets

/-- View of a section row with the given accumulated bullet ids. -/
def sectionView (sec : SectionRow) (ids : List String) : PlaybookSection :=
  { name := sec.name, display_name := sec.display_name,
    description := sec.description, ordering := sec.ordering,
    metadata := sec.metadata_, bullet_ids := ids }

/-- View of a bullet row (resolving its section relationship). -/
def bulletView (s : Store) (b : BulletRow) : PlaybookBullet :=
  { bullet_id := b.bullet_id,
    section_name := (bulletSection s b).name,
    section_display_name := (bulletSection s b).display_name,
    content := b.content,
    helpful_count := b.helpful_count,
    harmful_count := b.harmful_count,
    metadata := b.metadata_,
    created_at := b.created_at }

/-- Body of the `for bullet in bullets` loop of `get_snapshot`. -/
def snapshotBulletStep (s : Store) (snap : PlaybookSnapshot) (b : BulletRow) :
    PlaybookSnapshot :=
  let sec := bulletSection s b
  let snap1 := { snap with bullets := snapSetBullet snap.bullets b.bullet_id (bulletView s b) }
  match snapGet snap1.sections sec.name with
  | some secSnap =>
    let secSnap2 := { secSnap with bullet_ids := secSnap.bullet_ids ++ [b.bullet_id] }
    { snap1 with sections := snapSet snap1.sections sec.name secSnap2 }
  | none =>
    { snap1 with sections := snap1.sections ++ [(sec.name, sectionView sec [b.bullet_id])] }

/-- `AcePlaybookService.get_snapshot`: load sections/bullets, preserving
ordering for downstream prompts. -/
def get_snapshot (s : Store) (section_names : Option (List String)) :
    PlaybookSnapshot :=
  let sections := List.insertionSort sectionLE (selectedSections s section_names)
  let bullets := List.insertionSort bulletLE (selectedBullets s section_names)
  let snap1 := sections.foldl (fun snap sec =>
    { snap with sections := snapSet snap.sections sec.name (sectionView sec []) })
    {}
  bullets.foldl (snapshotBulletStep s) snap1

/-! Deduplication bookkeeping used to state and prove the batch-merge
semantics of `_deduplicate_ops`. -/

/-- First operation with the given dedupe key. -/
def lookupKey (k : DeltaAction × String) (l : List DeltaOperation) :
    Option DeltaOperation :=
  l.find? (fun o => o.dedupe_key == k)

/-- All operations of a batch with the given dedupe key, in batch order. -/
def opsFor (k : DeltaAction × String) (ops : List DeltaOperation) :
    List DeltaOperation :=
  ops.filter (fun o => o.dedupe_key == k)

/-- Keys of a batch in first-occurrence order (Python dict key order). -/
def firstKeys (ks : List (DeltaAction × String)) : List (DeltaAction × String) :=
  ks.foldl (fun acc k2 => if acc.any (fun k3 => k3 == k2) then acc else acc ++ [k2]) []

/-- The TAG merge performed by `_deduplicate_ops`: deltas are summed into the
existing entry, all other fields of the existing entry are kept. -/
def mergeInto (base op : DeltaOperation) : DeltaOperation :=
  { base with helpful_delta := base.helpful_delta + op.helpful_delta,
              harmful_delta := base.harmful_delta + op.harmful_delta }

/-- How one incoming operation combines with the dedupe dictionary's current
value at its key: TAG merges into an existing entry, everything else
overwrites (or inserts when absent). -/
def combineOne (k : DeltaAction × String) (base : Option DeltaOperation)
    (op : DeltaOperation) : DeltaOperation :=
  match base with
  | some o => if k.1 == DeltaAction.TAG then mergeInto o op else op
  | none => op

/-- The value the dedupe dictionary holds at key `k` after folding a batch,
as a function of its previous value at `k`. -/
def dedupCombine (k : DeltaAction × String) (base : Option DeltaOperation) :
    List DeltaOperation → Option DeltaOperation
  | [] => base
  | op :: rest =>
    if op.dedupe_key == k then dedupCombine k (some (combineOne k base op)) rest
    else dedupCombine k base rest


/-! Concrete fixtures used by the witness theorems. -/

/-- A one-section store row fixture. -/
def sampleSection : SectionRow :=
  { id := 1, name := ("core"), display_name := ("Core"), description := none,
    ordering := 1, metadata_ := [] }

/-- A bullet fixture living in `sampleSection` with zero counters. -/
def sampleBullet : BulletRow :=
  { id := 2, bullet_id := ("b1"), content := ("alpha"), section_id := 1,
    metadata_ := [], helpful_count := 0, harmful_count := 0, created_at := 0 }

/-- A store holding `sampleSection` and `sampleBullet`. -/
def sampleStore : Store :=
  { sections := [sampleSection], bullets := [sampleBullet], revisions := [],
    nextId := 3, nextCreatedAt := 1 }

/-- The empty store. -/
def emptyStore : Store :=
  { sections := [], bullets := [], revisions := [], nextId := 1, nextCreatedAt := 0 }

/-- ADD fixture targeting `b1` in section `core`. -/
def opAdd : DeltaOperation :=
  { action := DeltaAction.ADD, bullet_id := ("b1"),
    section_name := some ("core"), content := some ("beta") }

/-- TAG fixture with `helpful_delta = 1`. -/
def opTag : DeltaOperation :=
  { action := DeltaAction.TAG, bullet_id := ("b1"), helpful_delta := 1 }

/-- TAG fixture with `harmful_delta = -1`. -/
def opTagNeg : DeltaOperation :=
  { action := DeltaAction.TAG, bullet_id := ("b1"), harmful_delta := -1 }

/-- First UPDATE fixture for `b1`. -/
def opUpd1 : DeltaOperation :=
  { action := DeltaAction.UPDATE, bullet_id := ("b1"), content := some ("first") }

/-- Second UPDATE fixture for `b1` with different content. -/
def opUpd2 : DeltaOperation :=
  { action := DeltaAction.UPDATE, bullet_id := ("b1"), content := some ("second") }

/-- UPDATE fixture targeting a nonexistent bullet id. -/
def opUpdMissing : DeltaOperation :=
  { action := DeltaAction.UPDATE, bullet_id := ("zz"), content := some ("x") }

/-- REMOVE fixture for `b1`. -/
def opRem : DeltaOperation :=
  { action := DeltaAction.REMOVE, bullet_id := ("b1") }

/-- Fault oracle failing exactly at the second dispatched operation. -/
def faultsAt1 : Nat → Bool := fun i => i == 1


/-- Primary-key sanity of a store: bullet ids are distinct and below the id
counter (what the database enforces for generated keys). -/
def idsWF (s : Store) : Prop :=
  (s.bullets.map BulletRow.id).Nodup ∧ ∀ b ∈ s.bullets, b.id < s.nextId

/-- A sequence of TAG applications, for stating the counter-floor invariant
over arbitrary sequences. -/
def applyTags (s : Store) (ds : List DeltaOperation) : Store :=
  ds.foldl (fun st d => (_apply_tag st d).2) s

/-- Both saturating counters of every stored bullet are non-negative. -/
def nonnegCounts (s : Store) : Prop :=
  ∀ b ∈ s.bullets, 0 ≤ b.helpful_count ∧ 0 ≤ b.harmful_count

theorem find?_map_ifkey (l : List DeltaOperation) (k k2 : DeltaAction × String)
    (g : DeltaOperation → DeltaOperation)
    (hg : ∀ o : DeltaOperation, o.dedupe_key = k → (g o).dedupe_key = k) :
    (l.map (fun o => if o.dedupe_key == k then g o else o)).find?
        (fun o => o.dedupe_key == k2) =
      (l.find? (fun o => o.dedupe_key == k2)).map
        (fun o => if o.dedupe_key == k then g o else o) := by
  induction l with
  | nil => rfl
  | cons o rest ih =>
    by_cases hk : o.dedupe_key = k
    · have hgk : (g o).dedupe_key = k := hg o hk
      by_cases hk2 : k = k2
      · subst hk2
        simp [List.find?_cons, hk, hgk]
      · have h1 : (o.dedupe_key == k2) = false := by
          simp [hk]; exact hk2
        have h2 : ((g o).dedupe_key == k2) = false := by
          simp [hgk]; exact hk2
        simp only [List.map_cons, List.find?_cons]
        rw [if_pos (by simp [hk])]
        simp only [h2, h1]
        exact ih
    · have hne : (o.dedupe_key == k) = false := by simpa using hk
      simp only [List.map_cons, List.find?_cons, hne, Bool.false_eq_true, if_false]
      by_cases hp : (o.dedupe_key == k2) = true
      · simp [hp, hne, hk]
      · simp only [Bool.not_eq_true] at hp
        simp only [hp, Bool.false_eq_true, if_false]
        exact ih

theorem keys_map_ifkey (l : List DeltaOperation) (k : DeltaAction × String)
    (g : DeltaOperation → DeltaOperation)
    (hg : ∀ o : DeltaOperation, o.dedupe_key = k → (g o).dedupe_key = k) :
    (l.map (fun o => if o.dedupe_key == k then g o else o)).map
        DeltaOperation.dedupe_key = l.map DeltaOperation.dedupe_key := by
  induction l with
  | nil => rfl
  | cons o rest ih =>
    simp only [List.map_cons, ih]
    by_cases hk : o.dedupe_key = k
    · simp [hk, hg o hk]
    · simp [show (o.dedupe_key == k) = false by simpa using hk]

theorem any_eq_lookupKey (acc : List DeltaOperation) (k : DeltaAction × String) :
    acc.any (fun o => o.dedupe_key == k) = (lookupKey k acc).isSome := by
  induction acc with
  | nil => rfl
  | cons o rest ih =>
    by_cases h : (o.dedupe_key == k) = true
    · simp [lookupKey, List.find?_cons, h]
    · simp only [Bool.not_eq_true] at h
      simp [lookupKey, List.find?_cons, h, ih]
theorem lookupKey_nil (k : DeltaAction × String) : lookupKey k [] = none := rfl

theorem found_key {k : DeltaAction × String} {acc : List DeltaOperation}
    {o : DeltaOperation} (h : lookupKey k acc = some o) : o.dedupe_key = k := by
  have := List.find?_some h
  simpa using this

theorem lookupKey_dedupeStep (acc : List DeltaOperation) (op : DeltaOperation)
    (k : DeltaAction × String) :
    lookupKey k (dedupeStep acc op) =
      if op.dedupe_key == k then some (combineOne k (lookupKey k acc) op)
      else lookupKey k acc := by
  unfold dedupeStep
  by_cases hb1 : (op.action == DeltaAction.TAG &&
      acc.any fun o => o.dedupe_key == op.dedupe_key) = true
  · rw [if_pos hb1]
    have htag : op.action = DeltaAction.TAG := by
      have := (Bool.and_eq_true _ _).mp hb1
      simpa using this.1
    have hpres : (lookupKey op.dedupe_key acc).isSome := by
      rw [← any_eq_lookupKey]
      exact ((Bool.and_eq_true _ _).mp hb1).2
    have hrw := find?_map_ifkey acc op.dedupe_key k
      (fun o => { o with helpful_delta := o.helpful_delta + op.helpful_delta,
                          harmful_delta := o.harmful_delta + op.harmful_delta })
      (fun o h => by rw [← h]; rfl)
    unfold lookupKey
    rw [hrw]
    by_cases hk : op.dedupe_key = k
    · subst hk
      rw [if_pos (by simp)]
      obtain ⟨o, ho⟩ := Option.isSome_iff_exists.mp hpres
      rw [show List.find? (fun o => o.dedupe_key == op.dedupe_key) acc =
        lookupKey op.dedupe_key acc from rfl, ho]
      have hok : o.dedupe_key = op.dedupe_key := found_key ho
      have hk1 : (op.dedupe_key.1 == DeltaAction.TAG) = true := by
        simp [DeltaOperation.dedupe_key, htag]
      simp [hok, hk1, mergeInto, combineOne]
    · rw [if_neg (by simpa using hk)]
      rw [show List.find? (fun o => o.dedupe_key == k) acc = lookupKey k acc from rfl]
      cases hfind : lookupKey k acc with
      | none => rfl
      | some o =>
        have hok : o.dedupe_key = k := found_key hfind
        have hne2 : o.dedupe_key ≠ op.dedupe_key := by
          rw [hok]; intro hcon; exact hk hcon.symm
        simp [hne2]
  · rw [if_neg hb1]
    by_cases hb2 : (acc.any fun o => o.dedupe_key == op.dedupe_key) = true
    · rw [if_pos hb2]
      rw [any_eq_lookupKey] at hb2
      have hnotag : op.action ≠ DeltaAction.TAG := by
        intro hcon
        apply hb1
        rw [← any_eq_lookupKey] at hb2
        simp [hcon, hb2]
      have hrw := find?_map_ifkey acc op.dedupe_key k (fun _ => op)
        (fun o h => rfl)
      unfold lookupKey
      rw [hrw]
      by_cases hk : op.dedupe_key = k
      · subst hk
        rw [if_pos (by simp)]
        obtain ⟨o, ho⟩ := Option.isSome_iff_exists.mp hb2
        rw [show List.find? (fun o => o.dedupe_key == op.dedupe_key) acc =
          lookupKey op.dedupe_key acc from rfl, ho]
        have hok : o.dedupe_key = op.dedupe_key := found_key ho
        have hk1 : (op.dedupe_key.1 == DeltaAction.TAG) = false := by
          simpa [DeltaOperation.dedupe_key] using hnotag
        simp [hok, hk1, combineOne]
      · rw [if_neg (by simpa using hk)]
        rw [show List.find? (fun o => o.dedupe_key == k) acc = lookupKey k acc from rfl]
        cases hfind : lookupKey k acc with
        | none => rfl
        | some o =>
          have hok : o.dedupe_key = k := found_key hfind
          have hne2 : o.dedupe_key ≠ op.dedupe_key := by
            rw [hok]; intro hcon; exact hk hcon.symm
          simp [hne2]
    · rw [if_neg hb2]
      unfold lookupKey
      rw [List.find?_append]
      by_cases hk : op.dedupe_key = k
      · subst hk
        rw [if_pos (by simp)]
        have hnone : lookupKey op.dedupe_key acc = none := by
          cases h2 : lookupKey op.dedupe_key acc with
          | none => rfl
          | some o =>
            exfalso
            apply hb2
            rw [any_eq_lookupKey, h2]
            rfl
        rw [show List.find? (fun o => o.dedupe_key == op.dedupe_key) acc =
          lookupKey op.dedupe_key acc from rfl, hnone]
        simp [List.find?_cons, combineOne]
      · rw [if_neg (by simpa using hk)]
        have h1 : List.find? (fun o => o.dedupe_key == k) [op] = none := by
          simp [List.find?_cons, show (op.dedupe_key == k) = false by simpa using hk]
        rw [h1]
        simp

theorem lookupKey_foldl_dedupe (ops : List DeltaOperation) :
    ∀ (acc : List DeltaOperation) (k : DeltaAction × String),
      lookupKey k (List.foldl dedupeStep acc ops) =
        dedupCombine k (lookupKey k acc) ops := by
  induction ops with
  | nil => intro acc k; rfl
  | cons op rest ih =>
    intro acc k
    rw [List.foldl_cons, ih (dedupeStep acc op) k, lookupKey_dedupeStep]
    by_cases hk : (op.dedupe_key == k) = true
    · rw [if_pos hk]
      conv_rhs => rw [dedupCombine]
      rw [if_pos hk]
    · rw [if_neg hk]
      conv_rhs => rw [dedupCombine]
      rw [if_neg hk]

theorem lookupKey_dedup (ops : List DeltaOperation) (k : DeltaAction × String) :
    lookupKey k (_deduplicate_ops ops) = dedupCombine k none ops := by
  unfold _deduplicate_ops
  rw [lookupKey_foldl_dedupe ops [] k, lookupKey_nil]

theorem dedupCombine_some_nonTag (k : DeltaAction × String)
    (hk : k.1 ≠ DeltaAction.TAG) (o : DeltaOperation) :
    ∀ ops, dedupCombine k (some o) ops = some ((opsFor k ops).getLastD o) := by
  intro ops
  induction ops generalizing o with
  | nil => rfl
  | cons op rest ih =>
    rw [dedupCombine]
    unfold opsFor
    simp only [List.filter_cons]
    by_cases hko : (op.dedupe_key == k) = true
    · rw [if_pos hko, if_pos hko, List.getLastD_cons]
      have hcomb : combineOne k (some o) op = op := by
        simp [combineOne, show (k.1 == DeltaAction.TAG) = false by simpa using hk]
      rw [hcomb]
      exact ih op
    · rw [if_neg hko, if_neg hko]
      exact ih o

theorem dedupCombine_none_nonTag (k : DeltaAction × String)
    (hk : k.1 ≠ DeltaAction.TAG) :
    ∀ ops, dedupCombine k none ops = (opsFor k ops).getLast? := by
  intro ops
  induction ops with
  | nil => rfl
  | cons op rest ih =>
    rw [dedupCombine]
    unfold opsFor
    simp only [List.filter_cons]
    by_cases hko : (op.dedupe_key == k) = true
    · rw [if_pos hko, if_pos hko]
      have hcomb : combineOne k none op = op := rfl
      rw [hcomb, dedupCombine_some_nonTag k hk op rest, List.getLast?_cons]
      congr 1
      unfold opsFor
      rw [List.getLastD_eq_getLast?]
    · rw [if_neg hko, if_neg hko]
      exact ih

theorem dedupCombine_some_tag (k : DeltaAction × String)
    (hk : k.1 = DeltaAction.TAG) (o : DeltaOperation) :
    ∀ ops, dedupCombine k (some o) ops =
      some { o with
        helpful_delta := o.helpful_delta + ((opsFor k ops).map DeltaOperation.helpful_delta).sum,
        harmful_delta := o.harmful_delta + ((opsFor k ops).map DeltaOperation.harmful_delta).sum } := by
  intro ops
  induction ops generalizing o with
  | nil => simp [dedupCombine, opsFor]
  | cons op rest ih =>
    rw [dedupCombine]
    unfold opsFor
    simp only [List.filter_cons]
    by_cases hko : (op.dedupe_key == k) = true
    · rw [if_pos hko, if_pos hko]
      have hcomb : combineOne k (some o) op = mergeInto o op := by
        simp [combineOne, hk]
      rw [hcomb, ih (mergeInto o op)]
      unfold opsFor
      simp only [mergeInto, List.map_cons, List.sum_cons]
      congr 2 <;> ring
    · rw [if_neg hko, if_neg hko]
      exact ih o

theorem dedupCombine_none_tag (k : DeltaAction × String)
    (hk : k.1 = DeltaAction.TAG) :
    ∀ ops, dedupCombine k none ops =
      match opsFor k ops with
      | [] => none
      | o1 :: restF => some { o1 with
          helpful_delta := ((o1 :: restF).map DeltaOperation.helpful_delta).sum,
          harmful_delta := ((o1 :: restF).map DeltaOperation.harmful_delta).sum } := by
  intro ops
  induction ops with
  | nil => rfl
  | cons op rest ih =>
    rw [dedupCombine]
    unfold opsFor
    simp only [List.filter_cons]
    by_cases hko : (op.dedupe_key == k) = true
    · rw [if_pos hko, if_pos hko]
      have hcomb : combineOne k none op = op := rfl
      rw [hcomb, dedupCombine_some_tag k hk op rest]
      unfold opsFor
      simp only [List.map_cons, List.sum_cons]
    · rw [if_neg hko, if_neg hko]
      exact ih
theorem any_map_keys (acc : List DeltaOperation) (k : DeltaAction × String) :
    ((acc.map DeltaOperation.dedupe_key).any fun k2 => k2 == k) =
      (acc.any fun o => o.dedupe_key == k) := by
  induction acc with
  | nil => rfl
  | cons a l ih => simp [List.any_cons, ih]

theorem keys_dedupeStep (acc : List DeltaOperation) (op : DeltaOperation) :
    (dedupeStep acc op).map DeltaOperation.dedupe_key =
      if (acc.map DeltaOperation.dedupe_key).any (fun k2 => k2 == op.dedupe_key)
      then acc.map DeltaOperation.dedupe_key
      else acc.map DeltaOperation.dedupe_key ++ [op.dedupe_key] := by
  have hany := any_map_keys acc op.dedupe_key
  unfold dedupeStep
  by_cases hb1 : (op.action == DeltaAction.TAG &&
      acc.any fun o => o.dedupe_key == op.dedupe_key) = true
  · rw [if_pos hb1]
    have h2 : (acc.any fun o => o.dedupe_key == op.dedupe_key) = true :=
      ((Bool.and_eq_true _ _).mp hb1).2
    rw [keys_map_ifkey _ _ _ (fun o h => by rw [← h]; rfl)]
    rw [if_pos (hany.trans h2)]
  · rw [if_neg hb1]
    by_cases hb2 : (acc.any fun o => o.dedupe_key == op.dedupe_key) = true
    · rw [if_pos hb2]
      rw [keys_map_ifkey _ _ _ (fun o h => h.symm ▸ rfl)]
      rw [if_pos (hany.trans hb2)]
    · rw [if_neg hb2, List.map_append]
      rw [if_neg (by rw [hany]; exact hb2)]
      rfl

theorem keys_dedup (ops : List DeltaOperation) :
    (_deduplicate_ops ops).map DeltaOperation.dedupe_key =
      firstKeys (ops.map DeltaOperation.dedupe_key) := by
  suffices h : ∀ acc : List DeltaOperation,
      (List.foldl dedupeStep acc ops).map DeltaOperation.dedupe_key =
        List.foldl (fun acc2 k2 => if acc2.any (fun k3 => k3 == k2) then acc2 else acc2 ++ [k2])
          (acc.map DeltaOperation.dedupe_key) (ops.map DeltaOperation.dedupe_key) by
    exact h []
  induction ops with
  | nil => intro acc; rfl
  | cons op rest ih =>
    intro acc
    rw [List.foldl_cons, ih (dedupeStep acc op), List.map_cons, List.foldl_cons,
      keys_dedupeStep]
theorem dedup_preserves (P : DeltaOperation → Prop)
    (hmerge : ∀ o op : DeltaOperation, P o → P (mergeInto o op)) :
    ∀ ops : List DeltaOperation, (∀ op ∈ ops, P op) →
      ∀ o ∈ _deduplicate_ops ops, P o := by
  have key : ∀ ops acc : List DeltaOperation, (∀ op ∈ ops, P op) →
      (∀ o ∈ acc, P o) → ∀ o ∈ List.foldl dedupeStep acc ops, P o := by
    intro ops
    induction ops with
    | nil => intro acc _ hacc o ho; exact hacc o ho
    | cons op rest ih =>
      intro acc hops hacc o ho
      have hop : P op := hops op (by simp)
      rw [List.foldl_cons] at ho
      refine ih (dedupeStep acc op)
        (fun op2 h2 => hops op2 (List.mem_cons_of_mem _ h2)) ?_ o ho
      intro o2 ho2
      unfold dedupeStep at ho2
      split_ifs at ho2 with h1 h2
      · obtain ⟨a, ha, rfl⟩ := List.mem_map.mp ho2
        by_cases hk : (a.dedupe_key == op.dedupe_key) = true
        · rw [if_pos hk]
          exact hmerge a op (hacc a ha)
        · rw [if_neg hk]
          exact hacc a ha
      · obtain ⟨a, ha, rfl⟩ := List.mem_map.mp ho2
        by_cases hk : (a.dedupe_key == op.dedupe_key) = true
        · rw [if_pos hk]
          exact hop
        · rw [if_neg hk]
          exact hacc a ha
      · rcases List.mem_append.mp ho2 with h | h
        · exact hacc o2 h
        · rw [List.mem_singleton.mp h]
          exact hop
  intro ops hops
  exact key ops [] hops (fun o ho => absurd ho (List.not_mem_nil o))
theorem get_or_create_store (s : Store) (name : String)
    (dn ds : Option String) (md : Option Meta) :
    (get_or_create s name dn ds md).2.revisions = s.revisions ∧
    (get_or_create s name dn ds md).2.bullets = s.bullets ∧
    (get_or_create s name dn ds md).2.nextCreatedAt = s.nextCreatedAt ∧
    s.nextId ≤ (get_or_create s name dn ds md).2.nextId := by
  unfold get_or_create
  cases s.sections.find? (fun sec => sec.name == name) with
  | some sec =>
    simp only []
    split_ifs <;> simp
  | none =>
    simp

theorem createBullet_ok_store (s : Store) (data : BulletUpdate) (row : BulletRow)
    (s1 : Store) (h : createBullet s data = .ok (row, s1)) :
    s1.revisions = s.revisions ∧ s1.sections = s.sections := by
  unfold createBullet at h
  split_ifs at h
  simp only [Except.ok.injEq, Prod.mk.injEq] at h
  obtain ⟨-, h2⟩ := h
  rw [← h2]
  exact ⟨rfl, rfl⟩

theorem _apply_add_store (s : Store) (op : DeltaOperation) (row : BulletRow)
    (s1 : Store) (h : _apply_add s op = .ok (row, s1)) :
    s1.revisions = s.revisions := by
  simp only [_apply_add] at h
  split at h
  · simp only [Except.ok.injEq, Prod.mk.injEq] at h
    obtain ⟨-, h2⟩ := h
    rw [← h2]
    simpa [updateBullet] using (get_or_create_store s _ _ _ _).1
  · have := (createBullet_ok_store _ _ _ _ h).1
    rw [this]
    exact (get_or_create_store s _ _ _ _).1

theorem _apply_update_store (s : Store) (op : DeltaOperation) :
    (_apply_update s op).2.revisions = s.revisions := by
  unfold _apply_update
  cases hf : findBullet s op.bullet_id with
  | none => rfl
  | some bullet =>
    simp only []
    split_ifs <;>
      simp [updateBullet, (get_or_create_store s _ _ _ _).1]

theorem _apply_tag_store (s : Store) (op : DeltaOperation) :
    (_apply_tag s op).2.revisions = s.revisions := by
  unfold _apply_tag
  cases hf : findBullet s op.bullet_id with
  | none => rfl
  | some bullet => simp [updateBullet]

theorem _apply_remove_store (s : Store) (op : DeltaOperation) :
    (_apply_remove s op).2.revisions = s.revisions := by
  unfold _apply_remove
  cases hf : findBullet s op.bullet_id with
  | none => rfl
  | some bullet => simp [deleteBullet]

theorem applyStep_store (s : Store) (r : PlaybookDeltaResult)
    (op : DeltaOperation) (s1 : Store) (r1 : PlaybookDeltaResult)
    (h : applyStep s r op = .ok (s1, r1)) :
    s1.revisions = s.revisions ∧ r1.revision_id = r.revision_id := by
  unfold applyStep at h
  split at h
  · -- ADD
    split at h
    · exact absurd h (by simp)
    · rename_i bullet2 p heq
      simp only [Except.ok.injEq, Prod.mk.injEq] at h
      obtain ⟨h1, h2⟩ := h
      refine ⟨?_, by rw [← h2]⟩
      rw [← h1]
      exact _apply_add_store s op bullet2 p heq
  · -- UPDATE
    split at h <;>
      (rename_i heq
       simp only [Except.ok.injEq, Prod.mk.injEq] at h
       obtain ⟨h1, h2⟩ := h
       refine ⟨?_, by rw [← h2]⟩
       rw [← h1]
       have h3 := _apply_update_store s op
       rw [heq] at h3
       exact h3)
  · -- TAG
    split at h <;>
      (rename_i heq
       simp only [Except.ok.injEq, Prod.mk.injEq] at h
       obtain ⟨h1, h2⟩ := h
       refine ⟨?_, by rw [← h2]⟩
       rw [← h1]
       have h3 := _apply_tag_store s op
       rw [heq] at h3
       exact h3)
  · -- REMOVE
    split at h <;>
      (rename_i heq
       simp only [Except.ok.injEq, Prod.mk.injEq] at h
       obtain ⟨h1, h2⟩ := h
       refine ⟨?_, by rw [← h2]⟩
       rw [← h1]
       have h3 := _apply_remove_store s op
       rw [heq] at h3
       exact h3)

theorem runOps_store (faults : Nat → Bool) (l : List DeltaOperation) :
    ∀ (i : Nat) (s : Store) (r : PlaybookDeltaResult) (s1 : Store)
      (r1 : PlaybookDeltaResult),
      runOps faults i s r l = .ok (s1, r1) →
      s1.revisions = s.revisions ∧ r1.revision_id = r.revision_id := by
  induction l with
  | nil =>
    intro i s r s1 r1 h
    simp only [runOps, Except.ok.injEq, Prod.mk.injEq] at h
    obtain ⟨h1, h2⟩ := h
    rw [← h1, ← h2]
    exact ⟨rfl, rfl⟩
  | cons op rest ih =>
    intro i s r s1 r1 h
    simp only [runOps] at h
    split_ifs at h
    cases hstep : applyStep s r op with
    | error e => rw [hstep] at h; exact absurd h (by simp)
    | ok p =>
      rw [hstep] at h
      obtain ⟨hrev, hrid⟩ := applyStep_store s r op p.1 p.2 (by rw [hstep])
      obtain ⟨hrev2, hrid2⟩ := ih (i + 1) p.1 p.2 s1 r1 h
      exact ⟨hrev2.trans hrev, hrid2.trans hrid⟩

theorem tag_step (s : Store) (delta : DeltaOperation) (bullet : BulletRow)
    (h : findBullet s delta.bullet_id = some bullet) :
    ∃ row s1, _apply_tag s delta = (some row, s1) ∧
      row.helpful_count = max 0 (bullet.helpful_count + delta.helpful_delta) ∧
      row.harmful_count = max 0 (bullet.harmful_count + delta.harmful_delta) ∧
      row ∈ s1.bullets := by
  simp only [_apply_tag, h]
  refine ⟨_, _, rfl, ?_, ?_, ?_⟩
  · simp [applyBulletUpdate]
  · simp [applyBulletUpdate]
  · simp only [updateBullet]
    have hmem : bullet ∈ s.bullets := List.mem_of_find?_eq_some h
    refine List.mem_map.mpr ⟨bullet, hmem, ?_⟩
    simp

theorem tag_preserves_nonneg (s : Store) (d : DeltaOperation)
    (h : nonnegCounts s) : nonnegCounts (_apply_tag s d).2 := by
  unfold _apply_tag
  cases hf : findBullet s d.bullet_id with
  | none => simpa using h
  | some bullet =>
    intro b hb
    simp only [updateBullet, List.mem_map] at hb
    obtain ⟨a, ha, rfl⟩ := hb
    by_cases hid : (a.id == bullet.id) = true
    · simp [hid, applyBulletUpdate, le_max_iff]
    · simp only [hid]
      simp only [Bool.false_eq_true, if_false]
      exact h a ha

theorem applyTags_nonneg (s : Store) (ds : List DeltaOperation)
    (h : nonnegCounts s) : nonnegCounts (applyTags s ds) := by
  induction ds generalizing s with
  | nil => exact h
  | cons d rest ih =>
    exact ih _ (tag_preserves_nonneg s d h)

theorem applyStep_missing (s : Store) (r : PlaybookDeltaResult)
    (op : DeltaOperation)
    (hact : op.action = DeltaAction.UPDATE ∨ op.action = DeltaAction.TAG ∨
      op.action = DeltaAction.REMOVE)
    (hmiss : findBullet s op.bullet_id = none) :
    applyStep s r op = .ok (s, { r with skipped := r.skipped ++ [op.bullet_id] }) := by
  rcases hact with h | h | h <;>
    simp [applyStep, h, _apply_update, _apply_tag, _apply_remove, hmiss]

theorem runOps_skip (faults : Nat → Bool) (i : Nat) (s : Store)
    (r : PlaybookDeltaResult) (op : DeltaOperation) (rest : List DeltaOperation)
    (hact : op.action = DeltaAction.UPDATE ∨ op.action = DeltaAction.TAG ∨
      op.action = DeltaAction.REMOVE)
    (hmiss : findBullet s op.bullet_id = none)
    (hfault : faults i = false) :
    runOps faults i s r (op :: rest) =
      runOps faults (i + 1) s { r with skipped := r.skipped ++ [op.bullet_id] } rest := by
  simp [runOps, hfault, applyStep_missing s r op hact hmiss]

theorem runOps_ok_noFaults (faults : Nat → Bool) (l : List DeltaOperation) :
    ∀ (i : Nat) (s : Store) (r : PlaybookDeltaResult) x,
    runOps faults i s r l = .ok x → runOps noFaults i s r l = .ok x := by
  induction l with
  | nil => intro i s r x h; simpa [runOps] using h
  | cons op rest ih =>
    intro i s r x h
    simp only [runOps] at h ⊢
    by_cases hf : faults i = true
    · simp [hf] at h
    · simp only [Bool.not_eq_true] at hf
      simp only [hf, Bool.false_eq_true, if_false] at h
      simp only [noFaults, Bool.false_eq_true, if_false]
      cases hstep : applyStep s r op with
      | error e => rw [hstep] at h; exact absurd h (by simp)
      | ok p =>
        rw [hstep] at h
        exact ih _ _ _ _ h

theorem runOps_all_missing_updates (l : List DeltaOperation) :
    ∀ (i : Nat) (s : Store) (r : PlaybookDeltaResult),
      (∀ op ∈ l, op.action = DeltaAction.UPDATE ∧ findBullet s op.bullet_id = none) →
      runOps noFaults i s r l =
        .ok (s, { r with skipped := r.skipped ++ l.map DeltaOperation.bullet_id }) := by
  induction l with
  | nil =>
    intro i s r _
    simp [runOps]
  | cons op rest ih =>
    intro i s r hall
    obtain ⟨hact, hmiss⟩ := hall op (by simp)
    rw [runOps_skip noFaults i s r op rest (Or.inl hact) hmiss rfl]
    rw [ih (i + 1) s _ (fun op2 h2 => hall op2 (List.mem_cons_of_mem _ h2))]
    simp
/-- C1: `apply_deltas` is all-or-nothing per batch: whenever any operation or
the revision write raises an error, the caller sees the store exactly as it
was before the call; and a successful result coincides with the fault-free,
fully-applied run, so the caller either receives a fully-applied result or an
exception with no state change. -/
theorem claim_C1_batch_atomicity (faults : Nat → Bool) (s : Store)
    (ops : List DeltaOperation) (ab d : Option String) (md : Option Meta) :
    (∀ e, (apply_deltas faults s ops ab d md).2 = .error e →
      (apply_deltas faults s ops ab d md).1 = s) ∧
    (∀ r, (apply_deltas faults s ops ab d md).2 = .ok r →
      apply_deltas faults s ops ab d md = apply_deltas noFaults s ops ab d md) := by
  unfold apply_deltas
  by_cases hemp : (_deduplicate_ops ops).isEmpty
  · simp [hemp]
  · simp only [hemp, Bool.false_eq_true, if_false]
    cases hrun : runOps faults 0 s {} (_deduplicate_ops ops) with
    | error e => simp
    | ok p =>
      obtain ⟨s1, r0⟩ := p
      have hrun2 := runOps_ok_noFaults faults _ 0 s {} _ hrun
      rw [hrun2]
      by_cases hch : r0.has_changes = true
      · simp only [hrun, hch, if_true]
        by_cases hfl : faults (_deduplicate_ops ops).length = true
        · simp [hfl]
        · simp only [Bool.not_eq_true] at hfl
          simp [hfl, noFaults]
      · simp only [hrun, hch]
        simp [hch, noFaults]

/-- C1 witness: a two-operation batch on a concrete store with a fault
injected at the second operation returns an error and leaves the store
untouched. -/
theorem claim_C1_batch_atomicity_witness :
    (apply_deltas faultsAt1 sampleStore [opRem, opTag] none none none).2 =
      .error StoreErr.injected ∧
    (apply_deltas faultsAt1 sampleStore [opRem, opTag] none none none).1 =
      sampleStore :=
  ⟨by decide,
   (claim_C1_batch_atomicity faultsAt1 sampleStore [opRem, opTag] none none none).1
     StoreErr.injected (by decide)⟩
/-- C2: batch deduplication by `(action, bullet_id)`: for a non-TAG key the
deduplicated batch holds exactly the last operation of the batch with that
key, while for a TAG key it holds one merged operation whose
`helpful_delta`/`harmful_delta` are the sums over all TAG operations of the
batch with that key. -/
theorem claim_C2_dedup_merge (ops : List DeltaOperation) :
    (∀ k, k.1 ≠ DeltaAction.TAG →
      lookupKey k (_deduplicate_ops ops) = (opsFor k ops).getLast?) ∧
    (∀ bid, opsFor (DeltaAction.TAG, bid) ops = [] →
      lookupKey (DeltaAction.TAG, bid) (_deduplicate_ops ops) = none) ∧
    (∀ bid o1 restF, opsFor (DeltaAction.TAG, bid) ops = o1 :: restF →
      lookupKey (DeltaAction.TAG, bid) (_deduplicate_ops ops) =
        some { o1 with
          helpful_delta := ((o1 :: restF).map DeltaOperation.helpful_delta).sum,
          harmful_delta := ((o1 :: restF).map DeltaOperation.harmful_delta).sum }) := by
  refine ⟨?_, ?_, ?_⟩
  · intro k hk
    rw [lookupKey_dedup, dedupCombine_none_nonTag k hk]
  · intro bid hnil
    rw [lookupKey_dedup, dedupCombine_none_tag (DeltaAction.TAG, bid) rfl, hnil]
  · intro bid o1 restF hcons
    rw [lookupKey_dedup, dedupCombine_none_tag (DeltaAction.TAG, bid) rfl, hcons]

/-- C2 witness: two TAG operations with `helpful_delta = 1` merge into one
with `helpful_delta = 2`, and of two UPDATE operations with different
contents only the second survives deduplication. -/
theorem claim_C2_dedup_merge_witness :
    lookupKey (DeltaAction.UPDATE, ("b1"))
        (_deduplicate_ops [opTag, opTag, opUpd1, opUpd2]) = some opUpd2 ∧
    lookupKey (DeltaAction.TAG, ("b1"))
        (_deduplicate_ops [opTag, opTag, opUpd1, opUpd2]) =
      some { opTag with helpful_delta := 2 } := by
  constructor
  · rw [(claim_C2_dedup_merge [opTag, opTag, opUpd1, opUpd2]).1
      (DeltaAction.UPDATE, ("b1")) (by decide)]
    decide
  · rw [(claim_C2_dedup_merge [opTag, opTag, opUpd1, opUpd2]).2.2
      ("b1") opTag [opTag] (by decide)]
    decide

/-- C3: counter floor: an applied TAG persists
`max 0 (helpful_count + helpful_delta)` and
`max 0 (harmful_count + harmful_delta)`, and every sequence of TAG
applications preserves non-negativity of both counters of every bullet. -/
theorem claim_C3_counter_floor :
    (∀ (s : Store) (delta : DeltaOperation) (bullet : BulletRow),
      findBullet s delta.bullet_id = some bullet →
      ∃ row s1, _apply_tag s delta = (some row, s1) ∧
        row.helpful_count = max 0 (bullet.helpful_count + delta.helpful_delta) ∧
        row.harmful_count = max 0 (bullet.harmful_count + delta.harmful_delta) ∧
        row ∈ s1.bullets) ∧
    (∀ (s : Store) (ds : List DeltaOperation),
      nonnegCounts s → nonnegCounts (applyTags s ds)) :=
  ⟨tag_step, applyTags_nonneg⟩

/-- C3 witness: tagging the `(0, 0)` fixture bullet with `harmful_delta = -1`
yields counters `(0, 0)`, and non-negativity is preserved. -/
theorem claim_C3_counter_floor_witness :
    (∃ row s1, _apply_tag sampleStore opTagNeg = (some row, s1) ∧
      row.helpful_count = max 0 (sampleBullet.helpful_count + opTagNeg.helpful_delta) ∧
      row.harmful_count = max 0 (sampleBullet.harmful_count + opTagNeg.harmful_delta) ∧
      row ∈ s1.bullets) ∧
    nonnegCounts (applyTags sampleStore [opTagNeg]) :=
  ⟨claim_C3_counter_floor.1 sampleStore opTagNeg sampleBullet (by decide),
   claim_C3_counter_floor.2 sampleStore [opTagNeg]
     (by
       intro b hb
       have hb2 : b = sampleBullet := by
         simpa [sampleStore] using hb
       subst hb2
       decide)⟩
/-- C6: an UPDATE, TAG or REMOVE operation whose bullet id is absent does not
raise: the dispatch step returns the store unchanged with the id recorded
under `skipped`, and the batch loop continues with the remaining
operations. -/
theorem claim_C6_missing_target_skipped (s : Store) (r : PlaybookDeltaResult)
    (op : DeltaOperation)
    (hact : op.action = DeltaAction.UPDATE ∨ op.action = DeltaAction.TAG ∨
      op.action = DeltaAction.REMOVE)
    (hmiss : findBullet s op.bullet_id = none) :
    applyStep s r op = .ok (s, { r with skipped := r.skipped ++ [op.bullet_id] }) ∧
    (∀ (faults : Nat → Bool) (i : Nat) (rest : List DeltaOperation),
      faults i = false →
      runOps faults i s r (op :: rest) =
        runOps faults (i + 1) s { r with skipped := r.skipped ++ [op.bullet_id] } rest) :=
  ⟨applyStep_missing s r op hact hmiss,
   fun faults i rest hf => runOps_skip faults i s r op rest hact hmiss hf⟩

/-- C6 witness: an UPDATE against a missing bullet id on a concrete store is
skipped with the store unchanged, and the loop proceeds with the rest. -/
theorem claim_C6_missing_target_skipped_witness :
    applyStep sampleStore {} opUpdMissing =
      .ok (sampleStore, { skipped := [("zz")] }) ∧
    runOps noFaults 0 sampleStore {} [opUpdMissing] =
      runOps noFaults 1 sampleStore { skipped := [("zz")] } [] := by
  have h := claim_C6_missing_target_skipped sampleStore {} opUpdMissing
    (Or.inl rfl) (by decide)
  exact ⟨h.1, h.2 noFaults 0 [] rfl⟩

/-- C7: construct-and-validate: building a `DeltaOperation` succeeds exactly
when the action's requirements hold (ADD needs non-empty section and content,
UPDATE needs at least one updatable field, TAG needs a non-zero delta, REMOVE
needs only a well-sized bullet id), and on success the constructed value is
the given payload. -/
theorem claim_C7_construct_validate (action : DeltaAction) (bullet_id : String)
    (sn sdn c : Option String) (md : Option Meta) (hd hm : Int) :
    ((mkDeltaOperation action bullet_id sn sdn c md hd hm).isOk =
      DeltaOperation.wf
        { action := action, bullet_id := bullet_id, section_name := sn,
          section_display_name := sdn, content := c, metadata := md,
          helpful_delta := hd, harmful_delta := hm }) ∧
    (∀ op, mkDeltaOperation action bullet_id sn sdn c md hd hm = .ok op →
      op = { action := action, bullet_id := bullet_id, section_name := sn,
             section_display_name := sdn, content := c, metadata := md,
             helpful_delta := hd, harmful_delta := hm }) := by
  constructor
  · unfold mkDeltaOperation DeltaOperation.validate DeltaOperation.wf
    cases action <;>
      simp only [beq_iff_eq, Bool.and_eq_true, Bool.not_eq_true] <;>
      split_ifs <;>
      simp_all [Except.isOk, Except.toBool] <;>
      first
      | omega
      | (refine ⟨by omega, ?_⟩
         cases hsn : present sn <;> cases hsdn : present sdn <;>
           cases hc : present c <;>
           simp_all [Option.isSome_iff_ne_none])
  · intro op
    unfold mkDeltaOperation DeltaOperation.validate
    split_ifs <;> intro h <;> simp_all

/-- C7 witness: an ADD without a section name fails validation, a plain
REMOVE with a one-character id succeeds. -/
theorem claim_C7_construct_validate_witness :
    (mkDeltaOperation DeltaAction.ADD ("x") none none none none 0 0).isOk = false ∧
    (mkDeltaOperation DeltaAction.REMOVE ("x") none none none none 0 0).isOk = true := by
  constructor
  · rw [(claim_C7_construct_validate DeltaAction.ADD ("x") none none none none 0 0).1]
    decide
  · rw [(claim_C7_construct_validate DeltaAction.REMOVE ("x") none none none none 0 0).1]
    decide
/-- C10: deduplication preserves first-occurrence order: the deduplicated
batch's keys are the input keys in first-occurrence order (a later duplicate
replaces the payload in place), and on a successful changing batch the
revision records exactly the deduplicated operations in that order. -/
theorem claim_C10_dedup_first_order (ops : List DeltaOperation)
    (ab d : Option String) (md : Option Meta) :
    ((_deduplicate_ops ops).map DeltaOperation.dedupe_key =
      firstKeys (ops.map DeltaOperation.dedupe_key)) ∧
    (∀ (s s1 : Store) (r : PlaybookDeltaResult),
      apply_deltas noFaults s ops ab d md = (s1, .ok r) →
      r.has_changes = true →
      ∃ rev, s1.revisions = s.revisions ++ [rev] ∧
        rev.operations = _deduplicate_ops ops) := by
  refine ⟨keys_dedup ops, ?_⟩
  intro s s1 r happ hch
  unfold apply_deltas at happ
  by_cases hemp : (_deduplicate_ops ops).isEmpty
  · rw [if_pos hemp] at happ
    simp only [Prod.mk.injEq, Except.ok.injEq] at happ
    rw [← happ.2] at hch
    exact absurd hch (by decide)
  · rw [if_neg hemp] at happ
    cases hrun : runOps noFaults 0 s {} (_deduplicate_ops ops) with
    | error e =>
      rw [hrun] at happ
      simp at happ
    | ok p =>
      obtain ⟨s0, r0⟩ := p
      rw [hrun] at happ
      dsimp only at happ
      by_cases hch0 : r0.has_changes = true
      · rw [if_pos hch0] at happ
        rw [if_neg (by simp [noFaults])] at happ
        simp only [Prod.mk.injEq, Except.ok.injEq] at happ
        obtain ⟨h1, h2⟩ := happ
        refine ⟨{ id := s0.nextId, operations := _deduplicate_ops ops,
                  description := d, applied_by := ab, metadata_ := md.getD [] }, ?_, rfl⟩
        rw [← h1]
        have hrev := (runOps_store noFaults _ 0 s {} s0 r0 hrun).1
        simp [createRevision, hrev]
      · rw [if_neg hch0] at happ
        simp only [Prod.mk.injEq, Except.ok.injEq] at happ
        rw [← happ.2] at hch
        exact absurd hch hch0

/-- C10 witness: a single-ADD batch on the empty store records a revision
holding exactly the deduplicated batch, whose keys are in first-occurrence
order. -/
theorem claim_C10_dedup_first_order_witness :
    ((_deduplicate_ops [opAdd]).map DeltaOperation.dedupe_key =
      firstKeys ([opAdd].map DeltaOperation.dedupe_key)) ∧
    ∃ rev,
      (apply_deltas noFaults emptyStore [opAdd] none none none).1.revisions =
        emptyStore.revisions ++ [rev] ∧
      rev.operations = _deduplicate_ops [opAdd] := by
  refine ⟨(claim_C10_dedup_first_order [opAdd] none none none).1, ?_⟩
  exact (claim_C10_dedup_first_order [opAdd] none none none).2 emptyStore
    (apply_deltas noFaults emptyStore [opAdd] none none none).1
    { added := [("b1")], revision_id := some 3 } (by decide) (by decide)
/-- C4: a revision is written iff some operation produced an observable
change: on success `revision_id` is set exactly when `has_changes`, an
unchanged batch leaves the revision log untouched, and a batch of UPDATE
operations that all target nonexistent bullet ids yields empty
added/updated/tagged/removed lists, no revision and `revision_id = none`. -/
theorem claim_C4_revision_iff_changed (s : Store) (ops : List DeltaOperation)
    (ab d : Option String) (md : Option Meta) :
    (∀ (s1 : Store) (r : PlaybookDeltaResult),
      apply_deltas noFaults s ops ab d md = (s1, .ok r) →
      (r.revision_id.isSome = r.has_changes ∧
       (r.has_changes = false → s1.revisions = s.revisions))) ∧
    ((∀ op ∈ ops, op.action = DeltaAction.UPDATE ∧ findBullet s op.bullet_id = none) →
      ∃ r2, apply_deltas noFaults s ops ab d md = (s, .ok r2) ∧
        r2.added = [] ∧ r2.updated = [] ∧ r2.tagged = [] ∧ r2.removed = [] ∧
        r2.revision_id = none) := by
  constructor
  · intro s1 r happ
    unfold apply_deltas at happ
    by_cases hemp : (_deduplicate_ops ops).isEmpty
    · rw [if_pos hemp] at happ
      simp only [Prod.mk.injEq, Except.ok.injEq] at happ
      obtain ⟨h1, h2⟩ := happ
      rw [← h1, ← h2]
      exact ⟨rfl, fun _ => rfl⟩
    · rw [if_neg hemp] at happ
      cases hrun : runOps noFaults 0 s {} (_deduplicate_ops ops) with
      | error e =>
        rw [hrun] at happ
        simp at happ
      | ok p =>
        obtain ⟨s0, r0⟩ := p
        rw [hrun] at happ
        dsimp only at happ
        have hrid0 : r0.revision_id = none :=
          (runOps_store noFaults _ 0 s {} s0 r0 hrun).2
        have hrev0 : s0.revisions = s.revisions :=
          (runOps_store noFaults _ 0 s {} s0 r0 hrun).1
        by_cases hch0 : r0.has_changes = true
        · rw [if_pos hch0] at happ
          rw [if_neg (by simp [noFaults])] at happ
          simp only [Prod.mk.injEq, Except.ok.injEq] at happ
          obtain ⟨h1, h2⟩ := happ
          have hsame : r.has_changes = r0.has_changes := by
            rw [← h2]
            simp [PlaybookDeltaResult.has_changes]
          constructor
          · rw [hsame, hch0, ← h2]
            simp
          · intro hfalse
            rw [hsame] at hfalse
            rw [hfalse] at hch0
            cases hch0
        · rw [if_neg hch0] at happ
          simp only [Prod.mk.injEq, Except.ok.injEq] at happ
          obtain ⟨h1, h2⟩ := happ
          rw [← h2, ← h1]
          constructor
          · rw [hrid0]
            simp [show r0.has_changes = false by simpa using hch0]
          · intro _
            exact hrev0
  · intro hall
    have hded : ∀ op ∈ _deduplicate_ops ops,
        op.action = DeltaAction.UPDATE ∧ findBullet s op.bullet_id = none := by
      refine dedup_preserves
        (fun op => op.action = DeltaAction.UPDATE ∧ findBullet s op.bullet_id = none)
        ?_ ops hall
      intro o op h
      exact ⟨h.1, h.2⟩
    unfold apply_deltas
    by_cases hemp : (_deduplicate_ops ops).isEmpty
    · rw [if_pos hemp]
      exact ⟨({} : PlaybookDeltaResult), rfl, rfl, rfl, rfl, rfl, rfl⟩
    · rw [if_neg hemp]
      rw [runOps_all_missing_updates (_deduplicate_ops ops) 0 s {} hded]
      dsimp only
      rw [if_neg (by simp [PlaybookDeltaResult.has_changes])]
      exact ⟨_, rfl, rfl, rfl, rfl, rfl, rfl⟩
/-- C4 witness: a batch of one UPDATE against a nonexistent bullet id on a
concrete store is fully skipped: empty change lists, no revision,
`revision_id = none`. -/
theorem claim_C4_revision_iff_changed_witness :
    ∃ r2, apply_deltas noFaults sampleStore [opUpdMissing] none none none =
        (sampleStore, .ok r2) ∧
      r2.added = [] ∧ r2.updated = [] ∧ r2.tagged = [] ∧ r2.removed = [] ∧
      r2.revision_id = none :=
  (claim_C4_revision_iff_changed sampleStore [opUpdMissing] none none none).2
    (by
      intro op hop
      rw [List.mem_singleton.mp hop]
      exact ⟨rfl, by decide⟩)

theorem dedup_single (op : DeltaOperation) : _deduplicate_ops [op] = [op] := by
  unfold _deduplicate_ops dedupeStep
  simp

theorem findBullet_eq_of_bullets_eq (s1 s2 : Store) (bid : String)
    (h : s1.bullets = s2.bullets) : findBullet s1 bid = findBullet s2 bid := by
  unfold findBullet
  rw [h]

theorem updateBullet_ids (s : Store) (data : BulletUpdate) (iid : Nat) :
    (updateBullet s data iid).bullets.map BulletRow.id =
      s.bullets.map BulletRow.id := by
  simp only [updateBullet, List.map_map]
  refine List.map_congr_left ?_
  intro b _
  by_cases h : (b.id == iid) = true
  · simp only [Function.comp, h, if_true]
    rfl
  · simp only [Function.comp, h, Bool.false_eq_true, if_false]

theorem find?_map_update (l : List BulletRow) (bid : String) (ex : BulletRow)
    (data : BulletUpdate)
    (hids : (l.map BulletRow.id).Nodup)
    (hfind : l.find? (fun b => b.bullet_id == bid) = some ex)
    (hdata : data.bullet_id = some bid ∨ data.bullet_id = none) :
    (l.map (fun b => if b.id == ex.id then applyBulletUpdate b data else b)).find?
        (fun b => b.bullet_id == bid) = some (applyBulletUpdate ex data) := by
  induction l with
  | nil => cases hfind
  | cons b l ih =>
    rw [List.map_cons]
    rw [List.find?_cons] at hfind
    by_cases hp : (b.bullet_id == bid) = true
    · simp only [hp] at hfind
      have hb : b = ex := by simpa using hfind
      subst hb
      have hbid : ((applyBulletUpdate b data).bullet_id == bid) = true := by
        rcases hdata with h | h
        · simp [applyBulletUpdate, h]
        · simpa [applyBulletUpdate, h] using hp
      rw [List.find?_cons]
      simp only [beq_self_eq_true, if_true, hbid]
    · simp only [hp] at hfind
      have hmem : ex ∈ l := List.mem_of_find?_eq_some hfind
      have hbne : (b.id == ex.id) = false := by
        simp only [beq_eq_false_iff_ne, ne_eq]
        intro hcon
        have hin : b.id ∈ l.map BulletRow.id := by
          rw [hcon]
          exact List.mem_map.mpr ⟨ex, hmem, rfl⟩
        rw [List.map_cons] at hids
        exact (List.nodup_cons.mp hids).1 hin
      rw [List.find?_cons]
      simp only [hbne, Bool.false_eq_true, if_false, hp]
      refine ih ?_ hfind
      rw [List.map_cons] at hids
      exact (List.nodup_cons.mp hids).2

theorem get_or_create_mem (s : Store) (name : String)
    (dn ds : Option String) (md : Option Meta) :
    (get_or_create s name dn ds md).1.name = name ∧
    (get_or_create s name dn ds md).1 ∈ (get_or_create s name dn ds md).2.sections := by
  unfold get_or_create
  cases hf : s.sections.find? (fun sec => sec.name == name) with
  | some sec =>
    have hname : sec.name = name := by
      have := List.find?_some hf
      simpa using this
    have hmem : sec ∈ s.sections := List.mem_of_find?_eq_some hf
    simp only []
    split_ifs
    · exact ⟨hname, hmem⟩
    · constructor
      · simpa [applySectionUpdate] using hname
      · refine List.mem_map.mpr ⟨sec, hmem, ?_⟩
        simp
  | none =>
    simp

theorem get_or_create_idsWF (s : Store) (name : String)
    (dn ds : Option String) (md : Option Meta) (h : idsWF s) :
    idsWF (get_or_create s name dn ds md).2 := by
  obtain ⟨hrev, hbul, hca, hnext⟩ := get_or_create_store s name dn ds md
  refine ⟨by rw [hbul]; exact h.1, ?_⟩
  intro b hb
  rw [hbul] at hb
  exact lt_of_lt_of_le (h.2 b hb) hnext

theorem updateBullet_idsWF (s : Store) (data : BulletUpdate) (iid : Nat)
    (h : idsWF s) : idsWF (updateBullet s data iid) := by
  refine ⟨by rw [updateBullet_ids]; exact h.1, ?_⟩
  intro b hb
  simp only [updateBullet, List.mem_map] at hb
  obtain ⟨a, ha, rfl⟩ := hb
  by_cases hid : (a.id == iid) = true
  · simp only [hid, if_true]
    exact h.2 a ha
  · simp only [hid, Bool.false_eq_true, if_false]
    exact h.2 a ha

theorem present_some (o : Option String) (h : present o = true) :
    ∃ c, o = some c ∧ c ≠ ("") := by
  cases o with
  | none => cases h
  | some c =>
    refine ⟨c, rfl, ?_⟩
    intro hcon
    rw [hcon] at h
    cases h

theorem wf_add_content (op : DeltaOperation) (hact : op.action = DeltaAction.ADD)
    (hwf : op.wf = true) :
    present op.section_name = true ∧ present op.content = true := by
  unfold DeltaOperation.wf at hwf
  rw [hact] at hwf
  simp only [Bool.and_eq_true] at hwf
  exact hwf.2

theorem _apply_add_spec (s : Store) (op : DeltaOperation)
    (hact : op.action = DeltaAction.ADD) (hwf : op.wf = true)
    (hids : idsWF s) :
    ∃ row s1, _apply_add s op = .ok (row, s1) ∧
      row.bullet_id = op.bullet_id ∧
      row.content = op.content.getD ("") ∧
      row.metadata_ = op.metadata.getD [] ∧
      row.helpful_count = max op.helpful_delta 0 ∧
      row.harmful_count = max op.harmful_delta 0 ∧
      findBullet s1 op.bullet_id = some row ∧
      (∃ sec, sec ∈ s1.sections ∧ sec.name = op.section_name.getD ("") ∧
        row.section_id = sec.id) ∧
      s1.revisions = s.revisions ∧
      idsWF s1 ∧
      (∀ ex, findBullet s op.bullet_id = some ex →
        row.id = ex.id ∧ row.created_at = ex.created_at) := by
  obtain ⟨-, hc⟩ := wf_add_content op hact hwf
  obtain ⟨cval, hcval, -⟩ := present_some op.content hc
  obtain ⟨hrev, hbul, hca, hnext⟩ :=
    get_or_create_store s (op.section_name.getD ("")) op.section_display_name none none
  obtain ⟨hname, hsecmem⟩ :=
    get_or_create_mem s (op.section_name.getD ("")) op.section_display_name none none
  have hgcwf : idsWF (get_or_create s (op.section_name.getD (""))
      op.section_display_name none none).2 :=
    get_or_create_idsWF s _ _ _ _ hids
  have hfb : findBullet (get_or_create s (op.section_name.getD (""))
        op.section_display_name none none).2 op.bullet_id =
      findBullet s op.bullet_id :=
    findBullet_eq_of_bullets_eq _ _ _ hbul
  unfold _apply_add
  dsimp only
  cases hf : findBullet (get_or_create s (op.section_name.getD (""))
      op.section_display_name none none).2 op.bullet_id with
  | some existing =>
    refine ⟨_, _, rfl, rfl, ?_, rfl, rfl, rfl, ?_, ?_, ?_, ?_, ?_⟩
    · simp [applyBulletUpdate, hcval]
    · unfold findBullet updateBullet
      dsimp only
      exact find?_map_update _ op.bullet_id existing _ hgcwf.1 hf (Or.inl rfl)
    · exact ⟨_, hsecmem, hname, rfl⟩
    · exact hrev
    · exact updateBullet_idsWF _ _ _ hgcwf
    · intro ex hex
      rw [← hfb, hf] at hex
      have : existing = ex := by simpa using hex
      rw [this]
      exact ⟨rfl, rfl⟩
  | none =>
    have hany : ((get_or_create s (op.section_name.getD (""))
        op.section_display_name none none).2.bullets.any
          fun b => b.bullet_id == op.bullet_id) = false := by
      cases han : ((get_or_create s (op.section_name.getD (""))
          op.section_display_name none none).2.bullets.any
            fun b => b.bullet_id == op.bullet_id) with
      | false => rfl
      | true =>
        exfalso
        obtain ⟨b, hbmem, hbpred⟩ := List.any_eq_true.mp han
        unfold findBullet at hf
        have := List.find?_eq_none.mp hf b hbmem
        exact this hbpred
    unfold createBullet
    dsimp only
    rw [if_neg (by simp only [Option.getD_some]; rw [hany]; simp)]
    refine ⟨_, _, rfl, rfl, ?_, rfl, rfl, rfl, ?_, ?_, ?_, ?_, ?_⟩
    · simp [hcval]
    · unfold findBullet
      dsimp only
      rw [List.find?_append]
      unfold findBullet at hf
      rw [hf]
      simp [List.find?_cons]
    · exact ⟨_, hsecmem, hname, rfl⟩
    · exact hrev
    · constructor
      · dsimp only
        rw [List.map_append]
        refine List.Nodup.append hgcwf.1 (by simp) ?_
        intro x hx hy
        simp only [List.map_cons, List.map_nil, List.mem_singleton] at hy
        subst hy
        obtain ⟨b, hbmem, hbid⟩ := List.mem_map.mp hx
        have := hgcwf.2 b hbmem
        omega
      · intro b hb
        dsimp only at hb ⊢
        rcases List.mem_append.mp hb with h | h
        · have := hgcwf.2 b h
          omega
        · rw [List.mem_singleton.mp h]
          dsimp only
          omega
    · intro ex hex
      rw [← hfb, hf] at hex
      cases hex

theorem apply_single_add (s : Store) (op : DeltaOperation) (ab d : Option String)
    (md : Option Meta) (hact : op.action = DeltaAction.ADD) (hwf : op.wf = true)
    (hids : idsWF s) :
    ∃ s1 r, apply_deltas noFaults s [op] ab d md = (s1, .ok r) ∧
      r.added = [op.bullet_id] ∧ r.skipped = [] ∧ idsWF s1 ∧
      ∃ row, findBullet s1 op.bullet_id = some row ∧
        row.content = op.content.getD ("") ∧
        row.metadata_ = op.metadata.getD [] ∧
        row.helpful_count = max op.helpful_delta 0 ∧
        row.harmful_count = max op.harmful_delta 0 ∧
        (∃ sec, sec ∈ s1.sections ∧ sec.name = op.section_name.getD ("") ∧
          row.section_id = sec.id) ∧
        (∀ ex, findBullet s op.bullet_id = some ex →
          row.id = ex.id ∧ row.created_at = ex.created_at) := by
  obtain ⟨row, sv, heq, hbid, hcont, hmeta, hhelp, hharm, hfind, hsec, hrev, hvwf, hex⟩ :=
    _apply_add_spec s op hact hwf hids
  have hrun : runOps noFaults 0 s {} [op] =
      .ok (sv, { added := [row.bullet_id] }) := by
    unfold runOps
    rw [if_neg (by decide)]
    simp only [applyStep, hact, heq]
    rfl
  have happ : apply_deltas noFaults s [op] ab d md =
      ((createRevision sv [op] d ab (md.getD [])).2,
       .ok { added := [row.bullet_id],
             revision_id := some (createRevision sv [op] d ab (md.getD [])).1.id }) := by
    unfold apply_deltas
    rw [dedup_single]
    rw [if_neg (by simp)]
    rw [hrun]
    dsimp only
    rw [if_pos (by simp [PlaybookDeltaResult.has_changes])]
    rw [if_neg (by simp [noFaults])]
  refine ⟨_, _, happ, by rw [hbid], rfl, ?_, row, ?_, hcont, hmeta, hhelp, hharm, ?_, hex⟩
  · constructor
    · exact hvwf.1
    · intro b hb
      have := hvwf.2 b hb
      simp only [createRevision]
      omega
  · rw [← hfind]
    rfl
  · obtain ⟨sec, hsmem, hsname, hsid⟩ := hsec
    exact ⟨sec, hsmem, hsname, hsid⟩

/-- C5: idempotent ADD: applying an ADD batch never raises a duplicate-key
error; with an existing bullet of the same id the operation updates it in
place (same primary key and creation time, re-applied content, metadata,
section and counters) and still records the id under `added`; applying the
same ADD twice in two batches leaves the bullet's content at the latest
ADD's content. -/
theorem claim_C5_idempotent_add (s : Store) (op : DeltaOperation)
    (ab d : Option String) (md : Option Meta)
    (hact : op.action = DeltaAction.ADD) (hwf : op.wf = true)
    (hids : idsWF s) :
    ∃ s1 r, apply_deltas noFaults s [op] ab d md = (s1, .ok r) ∧
      r.added = [op.bullet_id] ∧ r.skipped = [] ∧
      (∃ row, findBullet s1 op.bullet_id = some row ∧
        row.content = op.content.getD ("") ∧
        row.metadata_ = op.metadata.getD [] ∧
        row.helpful_count = max op.helpful_delta 0 ∧
        row.harmful_count = max op.harmful_delta 0 ∧
        (∃ sec, sec ∈ s1.sections ∧ sec.name = op.section_name.getD ("") ∧
          row.section_id = sec.id) ∧
        (∀ ex, findBullet s op.bullet_id = some ex →
          row.id = ex.id ∧ row.created_at = ex.created_at)) ∧
      (∃ s2 r2, apply_deltas noFaults s1 [op] ab d md = (s2, .ok r2) ∧
        r2.added = [op.bullet_id] ∧
        ∃ row2, findBullet s2 op.bullet_id = some row2 ∧
          row2.content = op.content.getD ("")) := by
  obtain ⟨s1, r, happ, hadded, hskip, hwf1, row, hfind, hcont, hmeta, hhelp,
    hharm, hsec, hex⟩ := apply_single_add s op ab d md hact hwf hids
  refine ⟨s1, r, happ, hadded, hskip,
    ⟨row, hfind, hcont, hmeta, hhelp, hharm, hsec, hex⟩, ?_⟩
  obtain ⟨s2, r2, happ2, hadded2, hskip2, hwf2, row2, hfind2, hcont2, -⟩ :=
    apply_single_add s1 op ab d md hact hwf hwf1
  exact ⟨s2, r2, happ2, hadded2, row2, hfind2, hcont2⟩

/-- C5 witness: re-ADDing the existing fixture bullet `b1` succeeds, records
it under `added`, and two successive identical ADD batches leave its content
at the latest ADD's content. -/
theorem claim_C5_idempotent_add_witness :
    ∃ s1 r, apply_deltas noFaults sampleStore [opAdd] none none none = (s1, .ok r) ∧
      r.added = [opAdd.bullet_id] ∧ r.skipped = [] ∧
      (∃ row, findBullet s1 opAdd.bullet_id = some row ∧
        row.content = opAdd.content.getD ("") ∧
        row.metadata_ = opAdd.metadata.getD [] ∧
        row.helpful_count = max opAdd.helpful_delta 0 ∧
        row.harmful_count = max opAdd.harmful_delta 0 ∧
        (∃ sec, sec ∈ s1.sections ∧ sec.name = opAdd.section_name.getD ("") ∧
          row.section_id = sec.id) ∧
        (∀ ex, findBullet sampleStore opAdd.bullet_id = some ex →
          row.id = ex.id ∧ row.created_at = ex.created_at)) ∧
      (∃ s2 r2, apply_deltas noFaults s1 [opAdd] none none none = (s2, .ok r2) ∧
        r2.added = [opAdd.bullet_id] ∧
        ∃ row2, findBullet s2 opAdd.bullet_id = some row2 ∧
          row2.content = opAdd.content.getD ("")) :=
  claim_C5_idempotent_add sampleStore opAdd none none none rfl (by decide)
    (by constructor <;> decide)

theorem option_map_or (f : (String × String) → String) (x y : Option (String × String)) :
    Option.map f (x.or y) = (Option.map f x).or (Option.map f y) := by
  cases x <;> rfl

theorem dictLookup_map_update (old new : Meta) (key : String) :
    dictLookup key (old.map (fun kv =>
      match dictLookup kv.1 new with
      | some v => (kv.1, v)
      | none => kv)) =
    match dictLookup key old with
    | none => none
    | some w =>
      match dictLookup key new with
      | some v => some v
      | none => some w := by
  induction old with
  | nil => rfl
  | cons kv old ih =>
    obtain ⟨k0, v0⟩ := kv
    by_cases hk : (k0 == key) = true
    · have hkeq : k0 = key := by simpa using hk
      subst hkeq
      unfold dictLookup
      cases hnew : dictLookup k0 new with
      | some v =>
        unfold dictLookup at hnew
        simp [List.find?_cons, hnew]
      | none =>
        unfold dictLookup at hnew
        simp [List.find?_cons, hnew]
    · have hkf : (k0 == key) = false := by simpa using hk
      rw [List.map_cons]
      dsimp only
      cases hnew : dictLookup k0 new with
      | some v =>
        dsimp only
        unfold dictLookup
        rw [List.find?_cons, List.find?_cons]
        simp only [hkf]
        exact ih
      | none =>
        dsimp only
        unfold dictLookup
        rw [List.find?_cons, List.find?_cons]
        simp only [hkf]
        exact ih

theorem dictLookup_filter_new (old new : Meta) (key : String)
    (h : dictLookup key old = none) :
    dictLookup key (new.filter (fun kv => (dictLookup kv.1 old).isNone)) =
      dictLookup key new := by
  induction new with
  | nil => rfl
  | cons kv new ih =>
    obtain ⟨k0, v0⟩ := kv
    rw [List.filter_cons]
    by_cases hk : (k0 == key) = true
    · have hkeq : k0 = key := by simpa using hk
      subst hkeq
      rw [if_pos (by simp [h])]
      unfold dictLookup
      simp [List.find?_cons]
    · have hkf : (k0 == key) = false := by simpa using hk
      by_cases hkeep : ((dictLookup k0 old).isNone = true)
      · rw [if_pos hkeep]
        unfold dictLookup
        rw [List.find?_cons, List.find?_cons]
        simp only [hkf]
        exact ih
      · rw [if_neg hkeep]
        unfold dictLookup
        conv_rhs => rw [List.find?_cons]
        simp only [hkf]
        exact ih

theorem dictLookup_dictUpdate (old new : Meta) (key : String) :
    dictLookup key (dictUpdate old new) =
      (dictLookup key new).or (dictLookup key old) := by
  unfold dictUpdate
  have hsplit : dictLookup key
      ((old.map (fun kv =>
        match dictLookup kv.1 new with
        | some v => (kv.1, v)
        | none => kv)) ++
       new.filter (fun kv => (dictLookup kv.1 old).isNone)) =
      (dictLookup key (old.map (fun kv =>
        match dictLookup kv.1 new with
        | some v => (kv.1, v)
        | none => kv))).or
      (dictLookup key (new.filter (fun kv => (dictLookup kv.1 old).isNone))) := by
    unfold dictLookup
    rw [List.find?_append]
    exact option_map_or Prod.snd _ _
  rw [hsplit, dictLookup_map_update]
  cases hold : dictLookup key old with
  | some w =>
    simp only []
    cases hnew : dictLookup key new with
    | some v => rfl
    | none => rfl
  | none =>
    simp only []
    rw [dictLookup_filter_new old new key hold]
    cases hnew : dictLookup key new with
    | some v => rfl
    | none => rfl

theorem foldl_max_int (l : List SectionRow) :
    ∀ v : Int,
      l.foldl (fun a sec =>
        match a with
        | none => some sec.ordering
        | some v2 => some (max v2 sec.ordering)) (some v) =
      some (l.foldl (fun a sec => max a sec.ordering) v) := by
  induction l with
  | nil => intro v; rfl
  | cons t0 l ih =>
    intro v
    rw [List.foldl_cons, List.foldl_cons]
    exact ih (max v t0.ordering)

theorem foldl_max_int_ge (l : List SectionRow) :
    ∀ v : Int,
      v ≤ l.foldl (fun a sec => max a sec.ordering) v ∧
      ∀ t ∈ l, t.ordering ≤ l.foldl (fun a sec => max a sec.ordering) v := by
  induction l with
  | nil =>
    intro v
    exact ⟨le_refl v, fun t ht => absurd ht (List.not_mem_nil t)⟩
  | cons t0 l ih =>
    intro v
    rw [List.foldl_cons]
    obtain ⟨hv, hall⟩ := ih (max v t0.ordering)
    refine ⟨le_trans (le_max_left v t0.ordering) hv, ?_⟩
    intro t ht
    rcases List.mem_cons.mp ht with h | h
    · subst h
      exact le_trans (le_max_right v t.ordering) hv
    · exact hall t h

theorem maxOrdering_ge (s : Store) (t : SectionRow) (ht : t ∈ s.sections) :
    ∃ mx, maxOrdering s = some mx ∧ t.ordering ≤ mx := by
  unfold maxOrdering
  cases hl : s.sections with
  | nil => rw [hl] at ht; cases ht
  | cons t0 l =>
    rw [hl] at ht
    rw [List.foldl_cons]
    dsimp only
    rw [foldl_max_int l t0.ordering]
    refine ⟨_, rfl, ?_⟩
    rcases List.mem_cons.mp ht with h | h
    · rw [h]
      exact (foldl_max_int_ge l t0.ordering).1
    · exact (foldl_max_int_ge l t0.ordering).2 t h

theorem pyOrInt_some (mx : Int) : pyOrInt (some mx) 0 = mx := by
  unfold pyOrInt
  dsimp only
  split_ifs with h
  · omega
  · rfl

theorem next_ordering_gt (s : Store) (t : SectionRow) (ht : t ∈ s.sections) :
    t.ordering < _next_ordering s := by
  obtain ⟨mx, hmx, hle⟩ := maxOrdering_ge s t ht
  unfold _next_ordering
  rw [hmx, pyOrInt_some]
  omega

theorem next_ordering_of_max (s : Store) (mx : Int)
    (hmx : maxOrdering s = some mx) : _next_ordering s = mx + 1 := by
  unfold _next_ordering
  rw [hmx, pyOrInt_some]

theorem next_ordering_empty (s : Store) (h : s.sections = []) :
    _next_ordering s = 1 := by
  unfold _next_ordering maxOrdering
  rw [h]
  rfl

theorem map_replace_self (l : List SectionRow) (sec : SectionRow)
    (hmem : sec ∈ l) (hnodup : (l.map SectionRow.id).Nodup) :
    l.map (fun t => if t.id == sec.id then sec else t) = l := by
  have h := List.map_congr_left (l := l)
    (f := fun t => if t.id == sec.id then sec else t) (g := fun t => t) ?_
  · simpa using h
  · intro t ht
    by_cases hb : (t.id == sec.id) = true
    · have h2 : t = sec := List.inj_on_of_nodup_map hnodup ht hmem (by simpa using hb)
      simp [hb, h2]
    · simp [hb]

theorem get_or_create_found (s : Store) (name : String)
    (dn ds : Option String) (md : Option Meta) (sec : SectionRow)
    (hfind : s.sections.find? (fun t => t.name == name) = some sec)
    (hnodup : (s.sections.map SectionRow.id).Nodup) :
    ∃ sec2, get_or_create s name dn ds md =
        (sec2, { s with sections :=
          s.sections.map (fun t => if t.id == sec.id then sec2 else t) }) ∧
      sec2 = { sec with
        display_name := if present dn && (sec.display_name != dn.getD (""))
          then dn.getD ("") else sec.display_name,
        description := if present ds && (sec.description != some (ds.getD ("")))
          then some (ds.getD ("")) else sec.description,
        metadata_ := match md with
          | some m => dictUpdate sec.metadata_ m
          | none => sec.metadata_ } := by
  have hmem : sec ∈ s.sections := List.mem_of_find?_eq_some hfind
  have hself : s.sections.map (fun t => if t.id == sec.id then sec else t) =
      s.sections := map_replace_self s.sections sec hmem hnodup
  unfold get_or_create
  rw [hfind]
  dsimp only [present]
  cases dn with
  | none =>
    cases ds with
    | none =>
      cases md with
      | none =>
        refine ⟨sec, ?_, by simp⟩
        dsimp only [SectionUpdate.isEmpty]
        simp only [Option.isNone_none, Bool.and_self, if_true]
        rw [hself]
      | some m =>
        dsimp only
        by_cases h3 : (dictUpdate sec.metadata_ m != sec.metadata_) = true
        · simp only [h3, if_true]
          dsimp only [SectionUpdate.isEmpty]
          simp only [Option.isNone_none, Option.isNone_some, Bool.and_false,
            Bool.false_eq_true, if_false]
          exact ⟨_, rfl, by simp [applySectionUpdate]⟩
        · simp only [h3, Bool.false_eq_true, if_false]
          dsimp only [SectionUpdate.isEmpty]
          simp only [Option.isNone_none, Bool.and_self, if_true]
          have hmeq : dictUpdate sec.metadata_ m = sec.metadata_ := by
            simpa using h3
          refine ⟨sec, ?_, by simp [hmeq]⟩
          rw [hself]
    | some dsv =>
      dsimp only
      by_cases h2 : (!dsv.isEmpty && sec.description != some dsv) = true
      · simp only [h2, if_true]
        cases md with
        | none =>
          dsimp only [SectionUpdate.isEmpty]
          simp only [Option.isNone_none, Option.isNone_some, Bool.false_and,
            Bool.and_false, Bool.false_eq_true, if_false]
          exact ⟨_, rfl, by simp [applySectionUpdate, h2]⟩
        | some m =>
          dsimp only
          by_cases h3 : (dictUpdate sec.metadata_ m != sec.metadata_) = true
          · simp only [h3, if_true]
            dsimp only [SectionUpdate.isEmpty]
            simp only [Option.isNone_none, Option.isNone_some, Bool.and_false,
              Bool.false_eq_true, if_false]
            exact ⟨_, rfl, by simp [applySectionUpdate, h2]⟩
          · simp only [h3, Bool.false_eq_true, if_false]
            dsimp only [SectionUpdate.isEmpty]
            simp only [Option.isNone_none, Option.isNone_some, Bool.and_false,
              Bool.false_eq_true, if_false]
            have hmeq : dictUpdate sec.metadata_ m = sec.metadata_ := by
              simpa using h3
            exact ⟨_, rfl, by simp [applySectionUpdate, h2, hmeq]⟩
      · simp only [h2, Bool.false_eq_true, if_false]
        cases md with
        | none =>
          refine ⟨sec, ?_, by simp [h2]⟩
          dsimp only [SectionUpdate.isEmpty]
          simp only [Option.isNone_none, Bool.and_self, if_true]
          rw [hself]
        | some m =>
          dsimp only
          by_cases h3 : (dictUpdate sec.metadata_ m != sec.metadata_) = true
          · simp only [h3, if_true]
            dsimp only [SectionUpdate.isEmpty]
            simp only [Option.isNone_none, Option.isNone_some, Bool.and_false,
              Bool.false_eq_true, if_false]
            exact ⟨_, rfl, by simp [applySectionUpdate, h2]⟩
          · simp only [h3, Bool.false_eq_true, if_false]
            dsimp only [SectionUpdate.isEmpty]
            simp only [Option.isNone_none, Bool.and_self, if_true]
            have hmeq : dictUpdate sec.metadata_ m = sec.metadata_ := by
              simpa using h3
            refine ⟨sec, ?_, by simp [h2, hmeq]⟩
            rw [hself]
  | some dnv =>
    dsimp only
    by_cases h1 : (!dnv.isEmpty && sec.display_name != dnv) = true
    · simp only [h1, if_true]
      cases ds with
      | none =>
        cases md with
        | none =>
          dsimp only [SectionUpdate.isEmpty]
          simp only [Option.isNone_none, Option.isNone_some, Bool.false_and,
            Bool.and_false, Bool.false_eq_true, if_false]
          exact ⟨_, rfl, by simp [applySectionUpdate, h1]⟩
        | some m =>
          dsimp only
          by_cases h3 : (dictUpdate sec.metadata_ m != sec.metadata_) = true
          · simp only [h3, if_true]
            dsimp only [SectionUpdate.isEmpty]
            simp only [Option.isNone_some, Bool.false_and, Bool.and_false,
              Bool.false_eq_true, if_false]
            exact ⟨_, rfl, by simp [applySectionUpdate, h1]⟩
          · simp only [h3, Bool.false_eq_true, if_false]
            dsimp only [SectionUpdate.isEmpty]
            simp only [Option.isNone_some, Bool.false_and, Bool.false_eq_true, if_false]
            have hmeq : dictUpdate sec.metadata_ m = sec.metadata_ := by
              simpa using h3
            exact ⟨_, rfl, by simp [applySectionUpdate, h1, hmeq]⟩
      | some dsv =>
        dsimp only
        by_cases h2 : (!dsv.isEmpty && sec.description != some dsv) = true
        · simp only [h2, if_true]
          cases md with
          | none =>
            dsimp only [SectionUpdate.isEmpty]
            simp only [Option.isNone_some, Bool.false_and, Bool.and_false,
              Bool.false_eq_true, if_false]
            exact ⟨_, rfl, by simp [applySectionUpdate, h1, h2]⟩
          | some m =>
            dsimp only
            by_cases h3 : (dictUpdate sec.metadata_ m != sec.metadata_) = true
            · simp only [h3, if_true]
              dsimp only [SectionUpdate.isEmpty]
              simp only [Option.isNone_some, Bool.false_and, Bool.and_false,
                Bool.false_eq_true, if_false]
              exact ⟨_, rfl, by simp [applySectionUpdate, h1, h2]⟩
            · simp only [h3, Bool.false_eq_true, if_false]
              dsimp only [SectionUpdate.isEmpty]
              simp only [Option.isNone_some, Bool.false_and, Bool.false_eq_true, if_false]
              have hmeq : dictUpdate sec.metadata_ m = sec.metadata_ := by
                simpa using h3
              exact ⟨_, rfl, by simp [applySectionUpdate, h1, h2, hmeq]⟩
        · simp only [h2, Bool.false_eq_true, if_false]
          cases md with
          | none =>
            dsimp only [SectionUpdate.isEmpty]
            simp only [Option.isNone_some, Bool.false_and, Bool.and_false,
              Bool.false_eq_true, if_false]
            exact ⟨_, rfl, by simp [applySectionUpdate, h1, h2]⟩
          | some m =>
            dsimp only
            by_cases h3 : (dictUpdate sec.metadata_ m != sec.metadata_) = true
            · simp only [h3, if_true]
              dsimp only [SectionUpdate.isEmpty]
              simp only [Option.isNone_some, Bool.false_and, Bool.and_false,
                Bool.false_eq_true, if_false]
              exact ⟨_, rfl, by simp [applySectionUpdate, h1, h2]⟩
            · simp only [h3, Bool.false_eq_true, if_false]
              dsimp only [SectionUpdate.isEmpty]
              simp only [Option.isNone_some, Bool.false_and, Bool.false_eq_true, if_false]
              have hmeq : dictUpdate sec.metadata_ m = sec.metadata_ := by
                simpa using h3
              exact ⟨_, rfl, by simp [applySectionUpdate, h1, h2, hmeq]⟩
    · simp only [h1, Bool.false_eq_true, if_false]
      cases ds with
      | none =>
        cases md with
        | none =>
          refine ⟨sec, ?_, by simp [h1]⟩
          dsimp only [SectionUpdate.isEmpty]
          simp only [Option.isNone_none, Bool.and_self, if_true]
          rw [hself]
        | some m =>
          dsimp only
          by_cases h3 : (dictUpdate sec.metadata_ m != sec.metadata_) = true
          · simp only [h3, if_true]
            dsimp only [SectionUpdate.isEmpty]
            simp only [Option.isNone_none, Option.isNone_some, Bool.and_false,
              Bool.false_eq_true, if_false]
            exact ⟨_, rfl, by simp [applySectionUpdate, h1]⟩
          · simp only [h3, Bool.false_eq_true, if_false]
            dsimp only [SectionUpdate.isEmpty]
            simp only [Option.isNone_none, Bool.and_self, if_true]
            have hmeq : dictUpdate sec.metadata_ m = sec.metadata_ := by
              simpa using h3
            refine ⟨sec, ?_, by simp [h1, hmeq]⟩
            rw [hself]
      | some dsv =>
        dsimp only
        by_cases h2 : (!dsv.isEmpty && sec.description != some dsv) = true
        · simp only [h2, if_true]
          cases md with
          | none =>
            dsimp only [SectionUpdate.isEmpty]
            simp only [Option.isNone_none, Option.isNone_some, Bool.and_false,
              Bool.false_eq_true, if_false]
            exact ⟨_, rfl, by simp [applySectionUpdate, h1, h2]⟩
          | some m =>
            dsimp only
            by_cases h3 : (dictUpdate sec.metadata_ m != sec.metadata_) = true
            · simp only [h3, if_true]
              dsimp only [SectionUpdate.isEmpty]
              simp only [Option.isNone_none, Option.isNone_some, Bool.and_false,
                Bool.false_eq_true, if_false]
              exact ⟨_, rfl, by simp [applySectionUpdate, h1, h2]⟩
            · simp only [h3, Bool.false_eq_true, if_false]
              dsimp only [SectionUpdate.isEmpty]
              simp only [Option.isNone_none, Option.isNone_some, Bool.and_false,
                Bool.false_eq_true, if_false]
              have hmeq : dictUpdate sec.metadata_ m = sec.metadata_ := by
                simpa using h3
              exact ⟨_, rfl, by simp [applySectionUpdate, h1, h2, hmeq]⟩
        · simp only [h2, Bool.false_eq_true, if_false]
          cases md with
          | none =>
            refine ⟨sec, ?_, by simp [h1, h2]⟩
            dsimp only [SectionUpdate.isEmpty]
            simp only [Option.isNone_none, Bool.and_self, if_true]
            rw [hself]
          | some m =>
            dsimp only
            by_cases h3 : (dictUpdate sec.metadata_ m != sec.metadata_) = true
            · simp only [h3, if_true]
              dsimp only [SectionUpdate.isEmpty]
              simp only [Option.isNone_none, Option.isNone_some, Bool.and_false,
                Bool.false_eq_true, if_false]
              exact ⟨_, rfl, by simp [applySectionUpdate, h1, h2]⟩
            · simp only [h3, Bool.false_eq_true, if_false]
              dsimp only [SectionUpdate.isEmpty]
              simp only [Option.isNone_none, Bool.and_self, if_true]
              have hmeq : dictUpdate sec.metadata_ m = sec.metadata_ := by
                simpa using h3
              refine ⟨sec, ?_, by simp [h1, h2, hmeq]⟩
              rw [hself]

theorem get_or_create_created (s : Store) (name : String)
    (dn ds : Option String) (md : Option Meta)
    (hfind : s.sections.find? (fun t => t.name == name) = none) :
    ∃ newSec, get_or_create s name dn ds md =
        (newSec, { s with
                   sections := s.sections ++ [newSec],
                   nextId := s.nextId + 1 }) ∧
      newSec.name = name ∧ newSec.description = ds ∧
      newSec.metadata_ = md.getD [] ∧ newSec.id = s.nextId ∧
      newSec.ordering = _next_ordering s ∧
      (s.sections = [] → newSec.ordering = 1) ∧
      (∀ mx, maxOrdering s = some mx → newSec.ordering = mx + 1) ∧
      (∀ t ∈ s.sections, t.ordering < newSec.ordering) := by
  unfold get_or_create
  rw [hfind]
  dsimp only
  refine ⟨_, rfl, rfl, rfl, rfl, rfl, rfl, ?_, ?_, ?_⟩
  · intro h
    exact next_ordering_empty s h
  · intro mx hmx
    exact next_ordering_of_max s mx hmx
  · intro t ht
    exact next_ordering_gt s t ht

/-- C8 counterexample to the claim as stated: a provided, non-null but empty
`display_name` that differs from the current value is not merged — the code
requires truthiness (non-empty), not merely non-null. -/
theorem claim_C8_counterexample :
    (some ("") : Option String) ≠ none ∧
    sampleStore.sections.find? (fun t => t.name == ("core")) = some sampleSection ∧
    sampleSection.display_name ≠ ("") ∧
    (get_or_create sampleStore ("core") (some ("")) none none).1.display_name ≠ ("") ∧
    (get_or_create sampleStore ("core") (some ("")) none none).1.display_name =
      sampleSection.display_name := by
  refine ⟨by simp, by decide, by decide, by decide, by decide⟩

/-- C8 (amended): `get_or_create` semantics: if a section with the name
exists, provided non-empty (truthy) `display_name`/`description` are merged
only when different from the current value, metadata is shallow-merged (new
keys overwrite on conflict), and everything else — the section's id, name,
ordering, the other sections, bullets, revisions and counters — is unchanged;
if no such section exists, a new section is created whose ordering is one
greater than the current maximum ordering across all sections (the first
section gets ordering 1), so new sections sort after all existing ones. -/
theorem claim_C8_get_or_create_semantics (s : Store) (name : String)
    (dn ds : Option String) (md : Option Meta) :
    (∀ sec, s.sections.find? (fun t => t.name == name) = some sec →
      (s.sections.map SectionRow.id).Nodup →
      ∃ sec2, get_or_create s name dn ds md =
          (sec2, { s with sections :=
            s.sections.map (fun t => if t.id == sec.id then sec2 else t) }) ∧
        sec2 = { sec with
          display_name := if present dn && (sec.display_name != dn.getD (""))
            then dn.getD ("") else sec.display_name,
          description := if present ds && (sec.description != some (ds.getD ("")))
            then some (ds.getD ("")) else sec.description,
          metadata_ := match md with
            | some m => dictUpdate sec.metadata_ m
            | none => sec.metadata_ }) ∧
    (∀ (old new : Meta) (key : String),
      dictLookup key (dictUpdate old new) =
        (dictLookup key new).or (dictLookup key old)) ∧
    (s.sections.find? (fun t => t.name == name) = none →
      ∃ newSec, get_or_create s name dn ds md =
          (newSec, { s with
                     sections := s.sections ++ [newSec],
                     nextId := s.nextId + 1 }) ∧
        newSec.name = name ∧ newSec.description = ds ∧
        newSec.metadata_ = md.getD [] ∧ newSec.id = s.nextId ∧
        newSec.ordering = _next_ordering s ∧
        (s.sections = [] → newSec.ordering = 1) ∧
        (∀ mx, maxOrdering s = some mx → newSec.ordering = mx + 1) ∧
        (∀ t ∈ s.sections, t.ordering < newSec.ordering)) :=
  ⟨fun sec hf hn => get_or_create_found s name dn ds md sec hf hn,
   fun old new key => dictLookup_dictUpdate old new key,
   fun hf => get_or_create_created s name dn ds md hf⟩

/-- C8 witness: updating the fixture section with a new non-empty display
name and fresh metadata merges them; creating a section in the fixture store
gives it ordering 2, after the existing section. -/
theorem claim_C8_get_or_create_semantics_witness :
    (∃ sec2, get_or_create sampleStore ("core") (some ("Fancy")) none
        (some [(("k"), ("v"))]) =
        (sec2,
         { sampleStore with
           sections := sampleStore.sections.map
             (fun t => if t.id == sampleSection.id then sec2 else t) }) ∧
      sec2 = { sampleSection with
        display_name := if present (some ("Fancy")) &&
            (sampleSection.display_name != (some ("Fancy")).getD (""))
          then (some ("Fancy")).getD ("") else sampleSection.display_name,
        description := if present (none : Option String) &&
            (sampleSection.description != some ((none : Option String).getD ("")))
          then some ((none : Option String).getD (""))
          else sampleSection.description,
        metadata_ := match (some [(("k"), ("v"))] : Option Meta) with
          | some m => dictUpdate sampleSection.metadata_ m
          | none => sampleSection.metadata_ }) ∧
    (∃ newSec, get_or_create sampleStore ("fresh") none none none =
        (newSec, { sampleStore with
                   sections := sampleStore.sections ++ [newSec],
                   nextId := sampleStore.nextId + 1 }) ∧
      newSec.name = ("fresh") ∧ newSec.ordering = 2 ∧
      (∀ t ∈ sampleStore.sections, t.ordering < newSec.ordering)) := by
  constructor
  · exact (claim_C8_get_or_create_semantics sampleStore ("core") (some ("Fancy"))
      none (some [(("k"), ("v"))])).1 sampleSection (by decide) (by decide)
  · obtain ⟨newSec, happ, hname, -, -, -, hord, -, hmax, hlt⟩ :=
      (claim_C8_get_or_create_semantics sampleStore ("fresh") none none none).2.2
        (by decide)
    refine ⟨newSec, happ, hname, ?_, hlt⟩
    rw [hmax 1 (by decide)]
    decide

theorem selected_sublist (s : Store) (names : Option (List String)) :
    (selectedBullets s names).Sublist s.bullets ∧
    (selectedSections s names).Sublist s.sections := by
  unfold selectedBullets selectedSections
  cases names with
  | none => exact ⟨List.Sublist.refl _, List.Sublist.refl _⟩
  | some ns =>
    by_cases h : ns.isEmpty
    · simp [h]
    · simp only [h, Bool.false_eq_true, if_false]
      exact ⟨List.filter_sublist _, List.filter_sublist _⟩

theorem selected_section_mem (s : Store) (names : Option (List String))
    (hfk : ∀ b ∈ s.bullets, (findSectionById s b.section_id).isSome) :
    ∀ b ∈ selectedBullets s names,
      bulletSection s b ∈ selectedSections s names := by
  intro b hb
  unfold selectedBullets at hb
  unfold selectedSections
  cases names with
  | none =>
    have hsome := hfk b hb
    obtain ⟨sec0, hsec0⟩ := Option.isSome_iff_exists.mp hsome
    unfold bulletSection
    rw [hsec0]
    exact List.mem_of_find?_eq_some hsec0
  | some ns =>
    by_cases h : ns.isEmpty
    · simp only [h, if_true] at hb
      simp only [h, if_true]
      have hsome := hfk b hb
      obtain ⟨sec0, hsec0⟩ := Option.isSome_iff_exists.mp hsome
      unfold bulletSection
      rw [hsec0]
      exact List.mem_of_find?_eq_some hsec0
    · simp only [h, Bool.false_eq_true, if_false] at hb
      simp only [h, Bool.false_eq_true, if_false]
      obtain ⟨hmem, hpred⟩ := List.mem_filter.mp hb
      cases hsec0 : findSectionById s b.section_id with
      | none => rw [hsec0] at hpred; cases hpred
      | some sec0 =>
        rw [hsec0] at hpred
        simp only [Option.any_some] at hpred
        unfold bulletSection
        rw [hsec0]
        simp only [Option.getD_some]
        exact List.mem_filter.mpr ⟨List.mem_of_find?_eq_some hsec0, hpred⟩

theorem find?_assoc_map_sec (rows : List SectionRow)
    (g : SectionRow → PlaybookSection) (n : String) :
    ((rows.map (fun sec => (sec.name, g sec))).find? (fun p => p.1 == n)) =
      (rows.find? (fun sec => sec.name == n)).map (fun sec => (sec.name, g sec)) := by
  induction rows with
  | nil => rfl
  | cons sec rows ih =>
    rw [List.map_cons, List.find?_cons, List.find?_cons]
    by_cases h : (sec.name == n) = true
    · simp only [h]
      rfl
    · simp only [show ((sec.name, g sec).1 == n) = false by simpa using h,
        show (sec.name == n) = false by simpa using h]
      exact ih

theorem find?_assoc_map_bul (rows : List BulletRow)
    (g : BulletRow → PlaybookBullet) (n : String) :
    ((rows.map (fun b => (b.bullet_id, g b))).find? (fun p => p.1 == n)) =
      (rows.find? (fun b => b.bullet_id == n)).map (fun b => (b.bullet_id, g b)) := by
  induction rows with
  | nil => rfl
  | cons b rows ih =>
    rw [List.map_cons, List.find?_cons, List.find?_cons]
    by_cases h : (b.bullet_id == n) = true
    · simp only [h]
      rfl
    · simp only [show ((b.bullet_id, g b).1 == n) = false by simpa using h,
        show (b.bullet_id == n) = false by simpa using h]
      exact ih

theorem find?_of_mem_nodup_bul (l : List BulletRow) (b : BulletRow)
    (hmem : b ∈ l) (hnd : (l.map BulletRow.bullet_id).Nodup) :
    l.find? (fun b2 => b2.bullet_id == b.bullet_id) = some b := by
  induction l with
  | nil => cases hmem
  | cons b0 l ih =>
    rw [List.find?_cons]
    rw [List.map_cons] at hnd
    rcases List.mem_cons.mp hmem with h | h
    · subst h
      simp
    · by_cases hp : (b0.bullet_id == b.bullet_id) = true
      · exfalso
        have : b.bullet_id ∈ l.map BulletRow.bullet_id :=
          List.mem_map.mpr ⟨b, h, rfl⟩
        have hne := (List.nodup_cons.mp hnd).1
        rw [show b0.bullet_id = b.bullet_id by simpa using hp] at hne
        exact hne this
      · simp only [hp]
        exact ih h (List.nodup_cons.mp hnd).2

theorem find?_of_mem_nodup_sec (l : List SectionRow) (sec : SectionRow)
    (hmem : sec ∈ l) (hnd : (l.map SectionRow.name).Nodup) :
    l.find? (fun t => t.name == sec.name) = some sec := by
  induction l with
  | nil => cases hmem
  | cons t0 l ih =>
    rw [List.find?_cons]
    rw [List.map_cons] at hnd
    rcases List.mem_cons.mp hmem with h | h
    · subst h
      simp
    · by_cases hp : (t0.name == sec.name) = true
      · exfalso
        have : sec.name ∈ l.map SectionRow.name :=
          List.mem_map.mpr ⟨sec, h, rfl⟩
        have hne := (List.nodup_cons.mp hnd).1
        rw [show t0.name = sec.name by simpa using hp] at hne
        exact hne this
      · simp only [hp]
        exact ih h (List.nodup_cons.mp hnd).2

theorem snapshot_init_go (rows : List SectionRow) :
    ∀ acc : List (String × PlaybookSection),
      (∀ sec ∈ rows, (acc.any (fun p => p.1 == sec.name)) = false) →
      (rows.map SectionRow.name).Nodup →
      rows.foldl (fun (snap : PlaybookSnapshot) sec =>
          { snap with sections := snapSet snap.sections sec.name (sectionView sec []) })
        ({ sections := acc, bullets := [] } : PlaybookSnapshot) =
      ({ sections := acc ++ rows.map (fun sec => (sec.name, sectionView sec [])),
         bullets := [] } : PlaybookSnapshot) := by
  induction rows with
  | nil =>
    intro acc _ _
    simp
  | cons sec rows ih =>
    intro acc hacc hnd
    rw [List.foldl_cons]
    have hstep : snapSet acc sec.name (sectionView sec []) =
        acc ++ [(sec.name, sectionView sec [])] := by
      unfold snapSet
      rw [if_neg (by rw [hacc sec (by simp)]; simp)]
    dsimp only
    rw [hstep]
    rw [List.map_cons] at hnd
    rw [ih (acc ++ [(sec.name, sectionView sec [])]) ?_ (List.nodup_cons.mp hnd).2]
    · simp
    · intro sec2 h2
      rw [List.any_append]
      have h1 := hacc sec2 (List.mem_cons_of_mem _ h2)
      rw [h1]
      simp only [Bool.false_or, List.any_cons, List.any_nil, Bool.or_false]
      have : sec.name ≠ sec2.name := by
        intro hcon
        have hne := (List.nodup_cons.mp hnd).1
        rw [hcon] at hne
        exact hne (List.mem_map.mpr ⟨sec2, h2, rfl⟩)
      simpa using this

theorem any_assoc_map_bul (rows : List BulletRow) (g : BulletRow → PlaybookBullet)
    (n : String) :
    ((rows.map (fun b => (b.bullet_id, g b))).any (fun p => p.1 == n)) =
      rows.any (fun b => b.bullet_id == n) := by
  induction rows with
  | nil => rfl
  | cons b rows ih => simp [List.any_cons, ih]

theorem any_assoc_map_sec (rows : List SectionRow)
    (g : SectionRow → PlaybookSection) (n : String) :
    ((rows.map (fun sec => (sec.name, g sec))).any (fun p => p.1 == n)) =
      rows.any (fun sec => sec.name == n) := by
  induction rows with
  | nil => rfl
  | cons sec rows ih => simp [List.any_cons, ih]

theorem any_bid_eq_false (done : List BulletRow) (n : String)
    (h : n ∉ done.map BulletRow.bullet_id) :
    (done.any (fun b2 => b2.bullet_id == n)) = false := by
  cases han : done.any (fun b2 => b2.bullet_id == n) with
  | false => rfl
  | true =>
    exfalso
    obtain ⟨b2, hmem, hpred⟩ := List.any_eq_true.mp han
    apply h
    have hbe : b2.bullet_id = n := by simpa using hpred
    rw [← hbe]
    exact List.mem_map.mpr ⟨b2, hmem, rfl⟩

theorem snapshot_bullets_go (s : Store) (secRows : List SectionRow)
    (hnd : (secRows.map SectionRow.name).Nodup) :
    ∀ (pending done : List BulletRow),
      ((done ++ pending).map BulletRow.bullet_id).Nodup →
      (∀ b ∈ pending, (bulletSection s b).name ∈ secRows.map SectionRow.name) →
      List.foldl (snapshotBulletStep s)
        ({ sections := secRows.map (fun sec => (sec.name, sectionView sec
             ((done.filter (fun b2 => (bulletSection s b2).name == sec.name)).map
               BulletRow.bullet_id))),
           bullets := done.map (fun b2 => (b2.bullet_id, bulletView s b2)) } :
          PlaybookSnapshot) pending =
      ({ sections := secRows.map (fun sec => (sec.name, sectionView sec
             (((done ++ pending).filter
               (fun b2 => (bulletSection s b2).name == sec.name)).map
               BulletRow.bullet_id))),
         bullets := (done ++ pending).map (fun b2 => (b2.bullet_id, bulletView s b2)) } :
        PlaybookSnapshot) := by
  intro pending
  induction pending with
  | nil =>
    intro done _ _
    rw [List.append_nil]
    rfl
  | cons b rest ih =>
    intro done hnodup hmemcond
    rw [List.foldl_cons]
    have hassoc : done ++ b :: rest = (done ++ [b]) ++ rest := by
      rw [List.append_assoc]
      rfl
    have hb_notin : b.bullet_id ∉ done.map BulletRow.bullet_id := by
      intro hcon
      rw [List.map_append] at hnodup
      obtain ⟨-, -, hdisj⟩ := List.nodup_append.mp hnodup
      exact hdisj hcon (by simp)
    obtain ⟨sec0, hsec0mem, hsec0name⟩ :=
      List.mem_map.mp (hmemcond b (by simp))
    have hstep : snapshotBulletStep s
        ({ sections := secRows.map (fun sec => (sec.name, sectionView sec
             ((done.filter (fun b2 => (bulletSection s b2).name == sec.name)).map
               BulletRow.bullet_id))),
           bullets := done.map (fun b2 => (b2.bullet_id, bulletView s b2)) } :
          PlaybookSnapshot) b =
        ({ sections := secRows.map (fun sec => (sec.name, sectionView sec
             (((done ++ [b]).filter
               (fun b2 => (bulletSection s b2).name == sec.name)).map
               BulletRow.bullet_id))),
           bullets := (done ++ [b]).map (fun b2 => (b2.bullet_id, bulletView s b2)) } :
          PlaybookSnapshot) := by
      unfold snapshotBulletStep
      dsimp only
      have hbul : snapSetBullet
          (done.map (fun b2 => (b2.bullet_id, bulletView s b2)))
          b.bullet_id (bulletView s b) =
          (done ++ [b]).map (fun b2 => (b2.bullet_id, bulletView s b2)) := by
        unfold snapSetBullet
        rw [any_assoc_map_bul, any_bid_eq_false done b.bullet_id hb_notin]
        rw [if_neg (by simp)]
        rw [List.map_append]
        rfl
      rw [hbul]
      unfold snapGet
      rw [find?_assoc_map_sec]
      rw [show (bulletSection s b).name = sec0.name from hsec0name.symm]
      rw [find?_of_mem_nodup_sec secRows sec0 hsec0mem hnd]
      dsimp only [Option.map]
      unfold snapSet
      rw [any_assoc_map_sec]
      rw [show secRows.any (fun sec => sec.name == sec0.name) = true from
        List.any_eq_true.mpr ⟨sec0, hsec0mem, by simp⟩]
      simp only [if_true]
      congr 1
      rw [List.map_map]
      refine List.map_congr_left ?_
      intro sec hsecmem
      by_cases hs : (sec.name == sec0.name) = true
      · have hseq : sec = sec0 :=
          List.inj_on_of_nodup_map hnd hsecmem hsec0mem (by simpa using hs)
        subst hseq
        simp only [Function.comp, hs, if_true]
        rw [List.filter_append, List.map_append]
        have : List.filter (fun b2 => (bulletSection s b2).name == sec.name) [b] = [b] := by
          rw [List.filter_cons]
          rw [if_pos (by rw [hsec0name]; simp)]
          rfl
        rw [this]
        rfl
      · simp only [Function.comp, hs, Bool.false_eq_true, if_false]
        rw [List.filter_append]
        have : List.filter (fun b2 => (bulletSection s b2).name == sec.name) [b] = [] := by
          rw [List.filter_cons]
          rw [if_neg ?_]
          · rfl
          · rw [← hsec0name]
            intro hcon
            have heq2 : sec0.name = sec.name := by simpa using hcon
            apply hs
            rw [heq2]
            simp
        rw [this, List.append_nil]
    rw [hstep]
    rw [ih (done ++ [b]) (by rw [← hassoc]; exact hnodup)
      (fun b2 h2 => hmemcond b2 (List.mem_cons_of_mem _ h2))]
    rw [← hassoc]

theorem sort_names_nodup (s : Store) (names : Option (List String))
    (hsname : (s.sections.map SectionRow.name).Nodup) :
    ((List.insertionSort sectionLE (selectedSections s names)).map
      SectionRow.name).Nodup := by
  have hsub : (selectedSections s names).Sublist s.sections :=
    (selected_sublist s names).2
  have hnd : ((selectedSections s names).map SectionRow.name).Nodup :=
    (hsub.map SectionRow.name).nodup hsname
  have hperm := (List.perm_insertionSort sectionLE (selectedSections s names)).map
    SectionRow.name
  exact hperm.symm.nodup hnd

theorem sort_bids_nodup (s : Store) (names : Option (List String))
    (hbid : (s.bullets.map BulletRow.bullet_id).Nodup) :
    ((List.insertionSort bulletLE (selectedBullets s names)).map
      BulletRow.bullet_id).Nodup := by
  have hsub : (selectedBullets s names).Sublist s.bullets :=
    (selected_sublist s names).1
  have hnd : ((selectedBullets s names).map BulletRow.bullet_id).Nodup :=
    (hsub.map BulletRow.bullet_id).nodup hbid
  have hperm := (List.perm_insertionSort bulletLE (selectedBullets s names)).map
    BulletRow.bullet_id
  exact hperm.symm.nodup hnd

theorem sort_bul_section_mem (s : Store) (names : Option (List String))
    (hfk : ∀ b ∈ s.bullets, (findSectionById s b.section_id).isSome) :
    ∀ b ∈ List.insertionSort bulletLE (selectedBullets s names),
      (bulletSection s b).name ∈
        (List.insertionSort sectionLE (selectedSections s names)).map
          SectionRow.name := by
  intro b hb
  have hbsel : b ∈ selectedBullets s names :=
    (List.mem_insertionSort bulletLE).mp hb
  have hmem : bulletSection s b ∈ selectedSections s names :=
    selected_section_mem s names hfk b hbsel
  have hmem2 : bulletSection s b ∈
      List.insertionSort sectionLE (selectedSections s names) :=
    (List.mem_insertionSort sectionLE).mpr hmem
  exact List.mem_map.mpr ⟨bulletSection s b, hmem2, rfl⟩

theorem get_snapshot_eq (s : Store) (names : Option (List String))
    (hsname : (s.sections.map SectionRow.name).Nodup)
    (hbid : (s.bullets.map BulletRow.bullet_id).Nodup)
    (hfk : ∀ b ∈ s.bullets, (findSectionById s b.section_id).isSome) :
    get_snapshot s names =
      { sections := (List.insertionSort sectionLE (selectedSections s names)).map
          (fun sec => (sec.name, sectionView sec
            (((List.insertionSort bulletLE (selectedBullets s names)).filter
              (fun b2 => (bulletSection s b2).name == sec.name)).map
              BulletRow.bullet_id))),
        bullets := (List.insertionSort bulletLE (selectedBullets s names)).map
          (fun b2 => (b2.bullet_id, bulletView s b2)) } := by
  unfold get_snapshot
  dsimp only
  rw [snapshot_init_go (List.insertionSort sectionLE (selectedSections s names)) []
    (fun sec _ => rfl) (sort_names_nodup s names hsname)]
  rw [List.nil_append]
  have hgo := snapshot_bullets_go s
    (List.insertionSort sectionLE (selectedSections s names))
    (sort_names_nodup s names hsname)
    (List.insertionSort bulletLE (selectedBullets s names)) []
    (by
      rw [List.nil_append]
      exact sort_bids_nodup s names hbid)
    (sort_bul_section_mem s names hfk)
  simp only [List.filter_nil, List.map_nil, List.nil_append] at hgo
  exact hgo

/-- C9: snapshot completeness and ordering: under database integrity (unique
section names, unique bullet ids, resolvable section references) the snapshot
lists sections in ascending `(ordering, name)` order and bullets in ascending
`created_at` order, every selected bullet appears in `snapshot.bullets` under
its id, and each selected bullet's id appears in exactly one section's
`bullet_ids` list. -/
theorem claim_C9_snapshot_complete (s : Store) (names : Option (List String))
    (hsname : (s.sections.map SectionRow.name).Nodup)
    (hbid : (s.bullets.map BulletRow.bullet_id).Nodup)
    (hfk : ∀ b ∈ s.bullets, (findSectionById s b.section_id).isSome) :
    List.Pairwise (fun p q : String × PlaybookSection =>
      p.2.ordering < q.2.ordering ∨
        (p.2.ordering = q.2.ordering ∧ p.2.name.data ≤ q.2.name.data))
      (get_snapshot s names).sections ∧
    List.Pairwise (fun p q : String × PlaybookBullet =>
      p.2.created_at ≤ q.2.created_at) (get_snapshot s names).bullets ∧
    (∀ b ∈ selectedBullets s names,
      (get_snapshot s names).bullets.find? (fun p => p.1 == b.bullet_id) =
        some (b.bullet_id, bulletView s b)) ∧
    (∀ b ∈ selectedBullets s names,
      ((get_snapshot s names).sections.countP
        (fun p => p.2.bullet_ids.contains b.bullet_id)) = 1) := by
  rw [get_snapshot_eq s names hsname hbid hfk]
  refine ⟨?_, ?_, ?_, ?_⟩
  · have hsorted := List.sorted_insertionSort sectionLE (selectedSections s names)
    refine List.Pairwise.map _ ?_ hsorted
    intro a b hab
    unfold sectionLE at hab
    exact hab
  · have hsorted := List.sorted_insertionSort bulletLE (selectedBullets s names)
    refine List.Pairwise.map _ ?_ hsorted
    intro a b hab
    unfold bulletLE at hab
    exact hab
  · intro b hb
    have hbsort : b ∈ List.insertionSort bulletLE (selectedBullets s names) :=
      (List.mem_insertionSort bulletLE).mpr hb
    rw [find?_assoc_map_bul]
    rw [find?_of_mem_nodup_bul _ b hbsort (sort_bids_nodup s names hbid)]
    rfl
  · intro b hb
    have hbsort : b ∈ List.insertionSort bulletLE (selectedBullets s names) :=
      (List.mem_insertionSort bulletLE).mpr hb
    rw [List.countP_map]
    have hcongr : ∀ sec ∈ List.insertionSort sectionLE (selectedSections s names),
        (((fun p : String × PlaybookSection =>
            p.2.bullet_ids.contains b.bullet_id) ∘
          (fun sec => (sec.name, sectionView sec
            (((List.insertionSort bulletLE (selectedBullets s names)).filter
              (fun b2 => (bulletSection s b2).name == sec.name)).map
              BulletRow.bullet_id)))) sec = true ↔
          (sec.name == (bulletSection s b).name) = true) := by
      intro sec hsecmem
      simp only [Function.comp, sectionView]
      rw [List.contains_eq_any_beq]
      constructor
      · intro hc
        obtain ⟨x, hx, hpred⟩ := List.any_eq_true.mp hc
        obtain ⟨b2, hb2mem, hb2id⟩ := List.mem_map.mp hx
        obtain ⟨hb2sort, hb2name⟩ := List.mem_filter.mp hb2mem
        have hxb : x = b2.bullet_id := hb2id.symm
        have hbeq : b.bullet_id = b2.bullet_id := by
          rw [hxb] at hpred
          simpa using hpred
        have hb2b : b2 = b := by
          refine List.inj_on_of_nodup_map (sort_bids_nodup s names hbid) ?_ ?_ ?_
          · exact hb2sort
          · exact hbsort
          · exact hbeq.symm
        rw [hb2b] at hb2name
        have heq3 : (bulletSection s b).name = sec.name := by simpa using hb2name
        rw [heq3]
        simp
      · intro hname
        refine List.any_eq_true.mpr ⟨b.bullet_id, ?_, by simp⟩
        refine List.mem_map.mpr ⟨b, ?_, rfl⟩
        refine List.mem_filter.mpr ⟨hbsort, ?_⟩
        have heq3 : sec.name = (bulletSection s b).name := by simpa using hname
        rw [heq3]
        simp
    rw [List.countP_congr hcongr]
    have hn0 : (bulletSection s b).name ∈
        (List.insertionSort sectionLE (selectedSections s names)).map
          SectionRow.name :=
      sort_bul_section_mem s names hfk b hbsort
    have hcp : List.countP (fun x => x == (bulletSection s b).name)
        ((List.insertionSort sectionLE (selectedSections s names)).map
          SectionRow.name) =
        List.countP (fun sec => sec.name == (bulletSection s b).name)
          (List.insertionSort sectionLE (selectedSections s names)) :=
      List.countP_map _ _ _
    rw [← hcp, ← List.count_eq_countP]
    exact List.count_eq_one_of_mem (sort_names_nodup s names hsname) hn0

/-- C9 witness: the snapshot of the fixture store (no filter) is ordered,
contains the fixture bullet under its id, and that id appears in exactly one
section's `bullet_ids`. -/
theorem claim_C9_snapshot_complete_witness :
    List.Pairwise (fun p q : String × PlaybookSection =>
      p.2.ordering < q.2.ordering ∨
        (p.2.ordering = q.2.ordering ∧ p.2.name.data ≤ q.2.name.data))
      (get_snapshot sampleStore none).sections ∧
    List.Pairwise (fun p q : String × PlaybookBullet =>
      p.2.created_at ≤ q.2.created_at) (get_snapshot sampleStore none).bullets ∧
    (∀ b ∈ selectedBullets sampleStore none,
      (get_snapshot sampleStore none).bullets.find? (fun p => p.1 == b.bullet_id) =
        some (b.bullet_id, bulletView sampleStore b)) ∧
    (∀ b ∈ selectedBullets sampleStore none,
      ((get_snapshot sampleStore none).sections.countP
        (fun p => p.2.bullet_ids.contains b.bullet_id)) = 1) :=
  claim_C9_snapshot_complete sampleStore none (by decide) (by decide) (by decide)
